import Mathlib

set_option maxRecDepth 100000

/-!
# Verification of the personal expense tracker (`src/main.py`)

Shallow embedding of the program's data model and operations, and proofs of
the specification claims about them.

Modelling conventions:

* Python `float` values are modelled as exact rationals (`ℚ`).  All numbers
  the program handles are decimal literals read from text, so this captures
  the observable parse/print behaviour (`float(str(x)) == x`, shortest-form
  printing of decimal values); binary rounding to 53 bits is not modelled.
* Python strings are Lean `String`s; the ASCII fragments of `str.isalpha`,
  `str.capitalize`, `str.strip` and of digit classification are modelled
  (the program's own validation and serialisation only use ASCII data).
* The CSV file is a `String`; `csv.reader`/`csv.writer` (excel dialect,
  minimal quoting, `\r\n` line terminator) are modelled by an explicit
  state machine, and the text-mode universal-newline translation done by
  `open(filename, 'r')` is modelled by `textRead`.
* Interactive re-prompt loops are modelled by partial operations: an
  operation returns `none` exactly when the entered value is rejected
  (re-prompted) by the corresponding validation in the source.
-/

/-! ## Character utilities (ASCII) -/

/-- ASCII decimal digit, `'0'..'9'`. -/
def isDigitC (c : Char) : Bool := 48 ≤ c.toNat && c.toNat ≤ 57

/-- Python `str.strip` whitespace (ASCII fragment): space, tab, LF, CR, VT, FF. -/
def isPyWS (c : Char) : Bool :=
  c.toNat = 32 || c.toNat = 9 || c.toNat = 10 || c.toNat = 13 || c.toNat = 11 || c.toNat = 12

/-- ASCII letter (fragment of Python `str.isalpha` used by the program). -/
def isAlphaC (c : Char) : Bool :=
  (65 ≤ c.toNat && c.toNat ≤ 90) || (97 ≤ c.toNat && c.toNat ≤ 122)

/-- Strip `isPyWS` characters from both ends: Python `str.strip()`. -/
def stripChars (cs : List Char) : List Char :=
  ((cs.dropWhile isPyWS).reverse.dropWhile isPyWS).reverse

/-- Python `str.strip()`. -/
def pyStrip (s : String) : String := String.mk (stripChars s.data)

/-- Numeric value of a digit character. -/
def digitVal (c : Char) : ℕ := c.toNat - 48

/-- Left-to-right accumulation of a digit string's value. -/
def digitsValAux : ℕ → List Char → ℕ
  | acc, [] => acc
  | acc, c :: r => digitsValAux (acc * 10 + digitVal c) r

/-- Value of a decimal digit string. -/
def digitsVal (ds : List Char) : ℕ := digitsValAux 0 ds

/-- The digit character for `n < 10`. -/
def digitCh (n : ℕ) : Char :=
  if n = 0 then '0' else if n = 1 then '1' else if n = 2 then '2' else if n = 3 then '3'
  else if n = 4 then '4' else if n = 5 then '5' else if n = 6 then '6' else if n = 7 then '7'
  else if n = 8 then '8' else '9'

/-- Fuelled base-10 printer (fuel ≥ number of digits always suffices). -/
def natDigitsF : ℕ → ℕ → List Char → List Char
  | 0, _, acc => acc
  | fuel + 1, n, acc =>
    if n < 10 then digitCh n :: acc else natDigitsF fuel (n / 10) (digitCh (n % 10) :: acc)

/-- Decimal digit string of a natural number (no leading zeros, `0 ↦ "0"`). -/
def natDigits (n : ℕ) : List Char := natDigitsF (n + 1) n []

/-! ## Python `float()` (decimal core)

`float(s)` on the decimal grammar: optional surrounding whitespace, optional
sign, digits with at most one point (at least one digit), optional exponent.
`inf`/`nan` and digit-group underscores are not modelled; no claim involves
them.  The value is built with `mkRat` from integer arithmetic so that it is
kernel-computable. -/

/-- Split one optional leading sign, returning the sign as `1` or `-1`. -/
def splitSign (cs : List Char) : ℤ × List Char :=
  match cs with
  | [] => (1, [])
  | c :: r => if c = '+' then (1, r) else if c = '-' then (-1, r) else (1, c :: r)

/-- Split the fractional digits after one optional leading point. -/
def splitFrac (cs : List Char) : List Char × List Char :=
  match cs with
  | [] => ([], [])
  | c :: r => if c = '.' then (r.takeWhile isDigitC, r.dropWhile isDigitC) else ([], c :: r)

/-- Parse the after-sign part of the decimal grammar: digits with at most
one point (at least one digit), optional exponent. -/
def pyFloatAfterSign (sgn : ℤ) (cs : List Char) : Option ℚ :=
  let ip := cs.takeWhile isDigitC
  let cs2 := cs.dropWhile isDigitC
  let fr := splitFrac cs2
  let fp := fr.1
  let cs3 := fr.2
  if ip.isEmpty && fp.isEmpty then none
  else
    let mant : ℤ := (digitsVal ip : ℤ) * 10 ^ fp.length + (digitsVal fp : ℤ)
    match cs3 with
    | [] => some (mkRat (sgn * mant) (10 ^ fp.length))
    | c :: r =>
      if c = 'e' || c = 'E' then
        let es := splitSign r
        let ed := es.2.takeWhile isDigitC
        let rest := es.2.dropWhile isDigitC
        if ed.isEmpty || !rest.isEmpty then none
        else
          let e : ℤ := es.1 * (digitsVal ed : ℤ)
          some (mkRat (sgn * mant * 10 ^ e.toNat) (10 ^ (fp.length + (-e).toNat)))
      else none

/-- Parse the decimal grammar of Python `float()` on a character list. -/
def pyFloatCore (cs : List Char) : Option ℚ :=
  pyFloatAfterSign (splitSign cs).1 (splitSign cs).2

/-- Python `float(s)`: strip whitespace, then parse the decimal grammar. -/
def pyFloat (s : String) : Option ℚ := pyFloatCore (stripChars s.data)

/-! ## Python `str(float)` on decimal values

`str` of a float prints the shortest decimal form (`12.5`, `120.0`); on
values that are exact decimals — the only values the tracker handles — this
is the minimal-scale decimal expansion, always with at least one fractional
digit. -/

/-- Pad a digit string on the left with `'0'` to length `k`. -/
def padZeros (k : ℕ) (ds : List Char) : List Char := List.replicate (k - ds.length) '0' ++ ds

/-- Least `k ≤ 40` with `d ∣ 10^k`, if any: the decimal scale of a denominator. -/
def decScale (d : ℕ) : Option ℕ := (List.range 41).find? (fun k => 10 ^ k % d == 0)

/-- Decimal expansion of a nonnegative decimal rational, Python-`str` style. -/
def floatStrPos (q : ℚ) : List Char :=
  match decScale q.den with
  | some k =>
    let n := q.num.toNat * (10 ^ k / q.den)
    if k = 0 then natDigits n ++ ['.', '0']
    else natDigits (n / 10 ^ k) ++ '.' :: padZeros k (natDigits (n % 10 ^ k))
  | none => []

/-- Python `str` of a float holding an exact decimal value. -/
def floatStr (q : ℚ) : String :=
  if q < 0 then String.mk ('-' :: floatStrPos (-q)) else String.mk (floatStrPos q)

/-! ## CSV codec (`csv` module, excel dialect)

Writing: fields joined by `','`, minimal quoting (a field is quoted iff it
contains a delimiter, a quote or a line break; quotes are doubled), rows
terminated by `"\r\n"` (the writer runs on a file opened with `newline=''`).

Reading: the file is opened in text mode, so universal-newline translation
(`\r\n` and lone `\r` become `\n`) happens first (`textRead`); then a state
machine splits the character stream into rows of fields. -/

/-- Universal-newline translation of text-mode reading.  The flag records
whether the previous character was a `'\r'` (whose `'\n'` was already
emitted, so an immediately following `'\n'` is dropped). -/
def textReadAux : Bool → List Char → List Char
  | _, [] => []
  | prevCR, c :: r =>
    if c = '\r' then '\n' :: textReadAux true r
    else if c = '\n' then (if prevCR then textReadAux false r else '\n' :: textReadAux false r)
    else c :: textReadAux false r

/-- Text-mode read: translate `\r\n` and `\r` to `\n`. -/
def textRead (cs : List Char) : List Char := textReadAux false cs

/-- State of the CSV reading machine.  `field` and `row` are accumulated in
reverse; `rows` holds completed rows in reverse; `q` is "inside a quoted
section"; `pq` is "the previous character was a quote inside a quoted
section" (possible closing quote). -/
structure CsvSt where
  field : List Char
  row : List String
  rows : List (List String)
  q : Bool
  pq : Bool
deriving DecidableEq

/-- The current field, completed. -/
def doneField (st : CsvSt) : String := String.mk st.field.reverse

/-- One character of CSV reading. -/
def csvStep (st : CsvSt) (c : Char) : CsvSt :=
  if st.pq then
    -- just saw a quote inside a quoted field
    if c = '"' then { st with field := c :: st.field, pq := false }
    else if c = ',' then { st with field := [], row := doneField st :: st.row, q := false, pq := false }
    else if c = '\n' then
      { field := [], row := [], rows := (doneField st :: st.row).reverse :: st.rows, q := false, pq := false }
    else { st with field := c :: st.field, q := false, pq := false }
  else if st.q then
    if c = '"' then { st with pq := true }
    else { st with field := c :: st.field }
  else
    if c = '"' && st.field.isEmpty then { st with q := true }
    else if c = ',' then { st with field := [], row := doneField st :: st.row }
    else if c = '\n' then
      { field := [], row := [], rows := (doneField st :: st.row).reverse :: st.rows, q := false, pq := false }
    else { st with field := c :: st.field }

/-- Initial reader state. -/
def csvInit : CsvSt := ⟨[], [], [], false, false⟩

/-- Final flush: a pending last row (input not ending in a newline) is emitted. -/
def csvFinish (st : CsvSt) : List (List String) :=
  if st.field.isEmpty && st.row.isEmpty then st.rows.reverse
  else ((doneField st :: st.row).reverse :: st.rows).reverse

/-- Parse a character stream into CSV rows. -/
def csvRows (cs : List Char) : List (List String) := csvFinish (cs.foldl csvStep csvInit)

/-- Does a field need quoting when written? -/
def needsQuote (f : List Char) : Bool := f.any (fun c => c = ',' || c = '"' || c = '\n' || c = '\r')

/-- Double every quote character. -/
def escQ : List Char → List Char
  | [] => []
  | c :: r => if c = '"' then '"' :: '"' :: escQ r else c :: escQ r

/-- Serialise one field with minimal quoting. -/
def quoteF (f : List Char) : List Char :=
  if needsQuote f then '"' :: (escQ f ++ ['"']) else f

/-- Join serialised fields with commas. -/
def joinComma : List (List Char) → List Char
  | [] => []
  | [f] => f
  | f :: g :: r => f ++ ',' :: joinComma (g :: r)

/-- Serialise one row, `\r\n`-terminated (`csv.writer` default). -/
def writeRowChars (r : List String) : List Char :=
  joinComma (r.map (fun s => quoteF s.data)) ++ ['\r', '\n']

/-- Serialise a full table. -/
def writeCSVChars (rows : List (List String)) : List Char :=
  (rows.map writeRowChars).flatten

/-! ## `_validate_date` (lines 48–54)

`datetime.strptime(date_str, '%d-%m-%Y')`: per CPython's `_strptime`,
`%d` matches `3[01]|[12]\d|0[1-9]|[1-9]| [1-9]`, `%m` matches
`1[0-2]|0[1-9]|[1-9]`, `%Y` matches exactly four digits; the whole string
must be consumed; then constructing the `datetime` enforces `year ≥ 1` and
`day ≤` the length of the month (leap years included).  Since the literal
separators `'-'` cannot occur inside the field patterns, a full match is
equivalent to splitting on `'-'` into exactly three pieces matching the
three patterns. -/

/-- Split a character list on `'-'`. -/
def splitDash : List Char → List (List Char)
  | [] => [[]]
  | c :: r =>
    if c = '-' then [] :: splitDash r
    else
      match splitDash r with
      | [] => [[c]]
      | a :: as => (c :: a) :: as

/-- `lo ≤ c ≤ hi` on code points. -/
def betw (c : Char) (lo hi : ℕ) : Bool := lo ≤ c.toNat && c.toNat ≤ hi

/-- The `%d` pattern `3[01]|[12]\d|0[1-9]|[1-9]| [1-9]`. -/
def isDayChars : List Char → Bool
  | [c] => betw c 49 57
  | [c, d] =>
    (c.toNat = 51 && (d.toNat = 48 || d.toNat = 49))
    || ((c.toNat = 49 || c.toNat = 50) && betw d 48 57)
    || (c.toNat = 48 && betw d 49 57)
    || (c.toNat = 32 && betw d 49 57)
  | _ => false

/-- The `%m` pattern `1[0-2]|0[1-9]|[1-9]`. -/
def isMonthChars : List Char → Bool
  | [c] => betw c 49 57
  | [c, d] => (c.toNat = 49 && betw d 48 50) || (c.toNat = 48 && betw d 49 57)
  | _ => false

/-- The `%Y` pattern: exactly four digits. -/
def isYearChars (cs : List Char) : Bool := cs.length = 4 && cs.all (fun c => betw c 48 57)

/-- Numeric value of a matched field (ignoring the optional pad space). -/
def fieldVal (cs : List Char) : ℕ := digitsVal (cs.filter isDigitC)

/-- Gregorian leap year. -/
def isLeap (y : ℕ) : Bool := (y % 4 = 0 && y % 100 ≠ 0) || y % 400 = 0

/-- Length of a month. -/
def daysInMonth (y m : ℕ) : ℕ :=
  if m = 2 then (if isLeap y then 29 else 28)
  else if m = 4 || m = 6 || m = 9 || m = 11 then 30
  else 31

/-- `_validate_date`: does `datetime.strptime(s, '%d-%m-%Y')` succeed? -/
def validate_date (s : String) : Bool :=
  match splitDash s.data with
  | [d, m, y] =>
    isDayChars d && isMonthChars m && isYearChars y
      && 1 ≤ fieldVal y && fieldVal d ≤ daysInMonth (fieldVal y) (fieldVal m)
  | _ => false

/-! ## Data model

A stored record is the Python dict built either by `add_expense` or by
`csv.DictReader`; its text values can be `None` when a loaded row is shorter
than the header (`DictReader`'s `restval`), hence `Option String`. -/

/-- One expense record (`{'date', 'category', 'amount', 'description'}`). -/
structure Expense where
  date : Option String
  category : Option String
  amount : ℚ
  description : Option String
deriving DecidableEq

/-- The tracker's state: `self.expenses` and `self.monthly_budget`. -/
structure Tracker where
  expenses : List Expense
  monthly_budget : ℚ
deriving DecidableEq

/-- The fixed header / fieldnames (lines 39, 27). -/
def stdHeader : List String := ["date", "category", "amount", "description"]

/-! ## `_load_expenses` (lines 15–33)

`csv.DictReader` takes the first row as the fieldnames and maps each later
row to a dict; a missing cell (row shorter than the header) gets value
`None`, extra cells are ignored here; empty rows are skipped.  Per data row
the code runs

```python
try:
    row['amount'] = float(row['amount'])
    if not all(key in row for key in ['date','category','amount','description']):
        continue
    self.expenses.append(row)
except (ValueError, KeyError):
    continue
```

* `row['amount']` with `'amount'` not among the fieldnames raises `KeyError`
  → row skipped;
* `float(None)` (cell absent) raises `TypeError`, which the inner handler
  does **not** catch: it propagates to the file-level `except Exception`,
  which prints a warning and ends the load — rows already appended stay,
  all later rows are lost;
* `float` of a non-numeric string raises `ValueError` → row skipped;
* afterwards `'amount' in row` always holds, and the other three keys are
  in the dict exactly when they are fieldnames. -/

/-- `row[k]` of the `DictReader` dict: `none` = `KeyError` (no such
fieldname), `some none` = value `None` (missing cell), `some (some s)` =
cell text. -/
def dictVal (header row : List String) (k : String) : Option (Option String) :=
  match header.findIdx? (fun h => h = k) with
  | none => none
  | some i => some (row.get? i)

/-- Is `k` a fieldname? -/
def hasKey (header : List String) (k : String) : Bool := header.any (fun h => h = k)

/-- The per-row loop of `_load_expenses` (see above). -/
def processRows (header : List String) : List (List String) → List Expense
  | [] => []
  | r :: rs =>
    if r.isEmpty then processRows header rs
    else
      match dictVal header r "amount" with
      | none => processRows header rs
      | some none => []
      | some (some s) =>
        match pyFloat s with
        | none => processRows header rs
        | some a =>
          if hasKey header "date" && hasKey header "category" && hasKey header "description" then
            { date := (dictVal header r "date").join,
              category := (dictVal header r "category").join,
              amount := a,
              description := (dictVal header r "description").join } :: processRows header rs
          else processRows header rs

/-- `_load_expenses`: `none` = the file does not exist (the method returns
with the ledger left empty); otherwise parse the text-mode content. -/
def load_expenses (fileContent : Option String) : List Expense :=
  match fileContent with
  | none => []
  | some s =>
    match csvRows (textRead s.data) with
    | [] => []
    | header :: dataRows => processRows header dataRows

/-! ## `_save_expenses` (lines 35–46)

`csv.DictWriter` with the fixed fieldnames writes the header then one row
per dict, converting the float via `str` and `None` via the empty string. -/

/-- The written cells of one expense. -/
def expenseRow (e : Expense) : List String :=
  [e.date.getD "", e.category.getD "", floatStr e.amount, e.description.getD ""]

/-- `_save_expenses`: the full file content written for a ledger. -/
def save_expenses (es : List Expense) : String :=
  String.mk (writeCSVChars (stdHeader :: es.map expenseRow))

/-! ## Constructor and interactive operations -/

/-- `__init__` (lines 9–13): empty ledger, budget `0.0`, then hydrate from
the file (`none` = file absent). -/
def initTracker (fileContent : Option String) : Tracker :=
  { expenses := load_expenses fileContent, monthly_budget := 0 }

/-- Python `str.isalpha` (ASCII fragment): nonempty and all letters. -/
def pyIsalpha (cs : List Char) : Bool := !cs.isEmpty && cs.all isAlphaC

/-- Python `str.capitalize` (ASCII fragment): first char upper, rest lower. -/
def pyCapitalize (s : String) : String :=
  match s.data with
  | [] => ""
  | c :: r => String.mk (c.toUpper :: r.map Char.toLower)

/-- `add_expense` (lines 56–101) as a function of the four entered strings.
Each prompt loops until its validation passes; `none` models an input that
would be re-prompted, `some` the completed add. -/
def add_expense (t : Tracker) (dateIn catIn amtIn descIn : String) : Option Tracker :=
  let date := pyStrip dateIn
  let cat := pyStrip catIn
  let amtS := pyStrip amtIn
  let desc := pyStrip descIn
  if !validate_date date then none
  else if !(!cat.isEmpty && pyIsalpha cat.data) then none
  else
    match pyFloat amtS with
    | none => none
    | some a =>
      if a ≤ 0 then none
      else if desc.isEmpty then none
      else
        some { t with expenses :=
          t.expenses ++ [⟨some date, some (pyCapitalize cat), a, some desc⟩] }

/-- `set_budget` (lines 117–130): parse the entered amount, reject when
`budget < 0` (note: `0` passes this check). -/
def set_budget (t : Tracker) (budgetIn : String) : Option Tracker :=
  match pyFloat (pyStrip budgetIn) with
  | none => none
  | some b => if b < 0 then none else some { t with monthly_budget := b }

/-- `sum(expense['amount'] for expense in self.expenses)` (line 138). -/
def totalSpent (t : Tracker) : ℚ := (t.expenses.map Expense.amount).sum

/-- `track_budget` (lines 132–148): `none` models the early return
"Please set your monthly budget first." when `monthly_budget <= 0`;
otherwise the reported pair (total spent, remaining). -/
def track_budget (t : Tracker) : Option (ℚ × ℚ) :=
  if t.monthly_budget ≤ 0 then none
  else some (totalSpent t, t.monthly_budget - totalSpent t)

/-- `view_expenses` display order (line 114): insertion order, no filtering. -/
def listExpenses (t : Tracker) : List Expense := t.expenses

/-- A character a minimally-quoted unquoted field may contain. -/
def plainC (c : Char) : Prop := c ≠ ',' ∧ c ≠ '"' ∧ c ≠ '\n' ∧ c ≠ '\r'

/-! ## Well-formed expenses and the load/save round trip -/

/-- A well-formed `Expense`: exactly what the `add_expense` validations admit
(the spec's data-model invariant).  The amount is a positive exact decimal
(scale ≤ 40 covers every value `float` can print in positional form), and
the text fields carry no line breaks (strings returned by `input()` never
contain them; for the date and category this also follows from their
validations). -/
def WFExpense (e : Expense) : Bool :=
  (match e.date with
   | some d => validate_date d
   | none => false)
  && (match e.category with
      | some c => !c.isEmpty && pyIsalpha c.data
      | none => false)
  && decide (0 < e.amount) && (10 ^ 40 % e.amount.den == 0)
  && (match e.description with
      | some s => !s.isEmpty && s.data.all (fun c => !(c == '\r') && !(c == '\n'))
      | none => false)

/-! ## Character classes of validated fields -/

/-- Inverse of `splitDash`. -/
def joinDash : List (List Char) → List Char
  | [] => []
  | [p] => p
  | p :: q :: r => p ++ '-' :: joinDash (q :: r)

/-! # Claim theorems -/

/-- Witness ledger for the round-trip claim: two well-formed expenses, one
with a quoted, comma-containing description and one added through the
accepted one-digit date form. -/
def c1Ledger : List Expense :=
  [⟨some "01-01-2024", some "Food", mkRat 25 2, some "lunch, \"cafe\""⟩,
   ⟨some "2-3-2024", some "Bus", mkRat 3 1, some "x"⟩]

/-- The spec's claimed per-expense invariant (amount positive, date
syntactically valid). -/
def ExpenseInvariant (e : Expense) : Prop :=
  0 < e.amount ∧ ∃ d, e.date = some d ∧ validate_date d = true

/-! ## Sanity checks and lemmas -/

example : csvRows (textRead "a,b\r\nc,\"d,e\"\r\n".data) = [["a", "b"], ["c", "d,e"]] := by decide
example : csvRows "x,\"he said \"\"hi\"\"\"\n".data = [["x", "he said \"hi\""]] := by decide
example : csvRows "a,b".data = [["a", "b"]] := by decide
example : csvRows "".data = [] := by decide
example : String.mk (writeCSVChars [["a", "b,c"], ["d\"e", ""]])
    = "a,\"b,c\"\r\n\"d\"\"e\",\r\n" := by decide

example : validate_date "01-01-2024" = true := by decide
example : validate_date "1-1-2024" = true := by decide
example : validate_date "31-02-2024" = false := by decide
example : validate_date "29-02-2024" = true := by decide
example : validate_date "29-02-2023" = false := by decide
example : validate_date "31-04-2024" = false := by decide
example : validate_date "2024-01-01" = false := by decide
example : validate_date "01-01-0000" = false := by decide
example : validate_date " 1-12-2024" = true := by decide
example : validate_date "banana" = false := by decide
example : validate_date "011-01-2024" = false := by decide

example : pyFloat "12.50" = some (mkRat 1250 100) := by decide
example : pyFloat " -5 " = some (mkRat (-5) 1) := by decide
example : pyFloat "abc" = none := by decide
example : pyFloat "" = none := by decide
example : pyFloat "1e2" = some (mkRat 100 1) := by decide
example : pyFloat "1.5e-2" = some (mkRat 15 1000) := by decide
example : floatStr (mkRat 25 2) = "12.5" := by decide
example : floatStr (mkRat 120 1) = "120.0" := by decide
example : floatStr (mkRat (-101) 100) = "-1.01" := by decide

example : load_expenses none = [] := by decide
example :
    load_expenses (some "date,category,amount,description\r\n01-01-2024,Food,12.5,lunch\r\n")
      = [⟨some "01-01-2024", some "Food", mkRat 25 2, some "lunch"⟩] := by decide
example :
    load_expenses (some "date,category,amount,description\r\nbanana,Food,-5,x\r\n")
      = [⟨some "banana", some "Food", mkRat (-5) 1, some "x"⟩] := by decide
example :
    load_expenses (some "date,category,amount,description\r\n01-01-2024,Food\r\n02-01-2024,Bus,5,x\r\n")
      = [] := by decide
example :
    save_expenses [⟨some "01-01-2024", some "Food", mkRat 25 2, some "a, b"⟩]
      = "date,category,amount,description\r\n01-01-2024,Food,12.5,\"a, b\"\r\n" := by decide
example :
    add_expense ⟨[], 0⟩ "01-01-2024" "food" "12" "lunch"
      = some ⟨[⟨some "01-01-2024", some "Food", mkRat 12 1, some "lunch"⟩], 0⟩ := by decide
example : add_expense ⟨[], 0⟩ "01-01-2024" "123" "12" "lunch" = none := by decide
example : add_expense ⟨[], 0⟩ "01-01-2024" "food" "-1" "lunch" = none := by decide
example : set_budget ⟨[], 50⟩ "0" = some ⟨[], 0⟩ := by decide
example : track_budget ⟨[], 0⟩ = none := by decide

/-! ## Digit-string lemmas -/

theorem digitsValAux_nil (acc : ℕ) : digitsValAux acc [] = acc := rfl

theorem digitsValAux_cons (acc : ℕ) (c : Char) (r : List Char) :
    digitsValAux acc (c :: r) = digitsValAux (acc * 10 + digitVal c) r := rfl

theorem digitsValAux_eq (l : List Char) :
    ∀ acc, digitsValAux acc l = acc * 10 ^ l.length + digitsValAux 0 l := by
  induction l with
  | nil => intro acc; simp [digitsValAux_nil]
  | cons c r ih =>
      intro acc
      rw [digitsValAux_cons, ih, digitsValAux_cons 0, ih (0 * 10 + digitVal c)]
      simp only [List.length_cons, pow_succ]
      ring

theorem digitsVal_cons (c : Char) (r : List Char) :
    digitsVal (c :: r) = digitVal c * 10 ^ r.length + digitsVal r := by
  simp only [digitsVal, digitsValAux_cons]
  rw [digitsValAux_eq r (0 * 10 + digitVal c)]
  ring

theorem digitsVal_append (a b : List Char) :
    digitsVal (a ++ b) = digitsVal a * 10 ^ b.length + digitsVal b := by
  induction a with
  | nil => simp [digitsVal, digitsValAux_nil]
  | cons c r ih =>
      simp only [List.cons_append, digitsVal_cons, ih, List.length_append]
      ring

theorem digitsVal_replicate_zero (m : ℕ) : digitsVal (List.replicate m '0') = 0 := by
  induction m with
  | zero => rfl
  | succ k ih => simp [List.replicate_succ, digitsVal_cons, ih, digitVal]

theorem digitCh_isDigit (n : ℕ) : isDigitC (digitCh n) = true := by
  unfold digitCh
  by_cases h0 : n = 0
  · simp [h0]; decide
  by_cases h1 : n = 1
  · simp [h0, h1]; decide
  by_cases h2 : n = 2
  · simp [h0, h1, h2]; decide
  by_cases h3 : n = 3
  · simp [h0, h1, h2, h3]; decide
  by_cases h4 : n = 4
  · simp [h0, h1, h2, h3, h4]; decide
  by_cases h5 : n = 5
  · simp [h0, h1, h2, h3, h4, h5]; decide
  by_cases h6 : n = 6
  · simp [h0, h1, h2, h3, h4, h5, h6]; decide
  by_cases h7 : n = 7
  · simp [h0, h1, h2, h3, h4, h5, h6, h7]; decide
  by_cases h8 : n = 8
  · simp [h0, h1, h2, h3, h4, h5, h6, h7, h8]; decide
  · simp [h0, h1, h2, h3, h4, h5, h6, h7, h8]; decide

theorem digitCh_val (n : ℕ) (h : n < 10) : digitVal (digitCh n) = n := by
  interval_cases n <;> decide

theorem natDigitsF_acc (fuel : ℕ) : ∀ (n : ℕ) (acc : List Char),
    natDigitsF fuel n acc = natDigitsF fuel n [] ++ acc := by
  induction fuel with
  | zero => intro n acc; rfl
  | succ f ih =>
      intro n acc
      by_cases h : n < 10
      · simp [natDigitsF, h]
      · simp only [natDigitsF, h, if_false]
        rw [ih (n / 10) (digitCh (n % 10) :: acc), ih (n / 10) [digitCh (n % 10)]]
        simp

theorem natDigitsF_succ (fuel n : ℕ) (acc : List Char) :
    natDigitsF (fuel + 1) n acc
      = if n < 10 then digitCh n :: acc else natDigitsF fuel (n / 10) (digitCh (n % 10) :: acc) := rfl

theorem lt_pow10_succ_self (a : ℕ) : a < 10 ^ (a + 1) :=
  lt_of_lt_of_le (Nat.lt_pow_self (by norm_num) a)
    (Nat.pow_le_pow_right (by norm_num) (Nat.le_succ a))

theorem natDigitsF_congr : ∀ f g n, n < 10 ^ (f + 1) → n < 10 ^ (g + 1) →
    natDigitsF (f + 1) n [] = natDigitsF (g + 1) n [] := by
  intro f
  induction f with
  | zero =>
      intro g n h1 _
      have hn : n < 10 := by simpa using h1
      rw [natDigitsF_succ 0 n, natDigitsF_succ g n, if_pos hn, if_pos hn]
  | succ f ih =>
      intro g n h1 h2
      by_cases hn : n < 10
      · rw [natDigitsF_succ (f + 1) n, natDigitsF_succ g n, if_pos hn, if_pos hn]
      · obtain ⟨g1, rfl⟩ : ∃ g1, g = g1 + 1 := ⟨g - 1, by
          rcases Nat.eq_zero_or_pos g with h | h
          · subst h; simp only [pow_succ, pow_zero, one_mul] at h2; omega
          · omega⟩
        have hb1 : n / 10 < 10 ^ (f + 1) := by
          rw [Nat.div_lt_iff_lt_mul (by norm_num)]
          calc n < 10 ^ (f + 1 + 1) := h1
          _ = 10 ^ (f + 1) * 10 := by ring
        have hb2 : n / 10 < 10 ^ (g1 + 1) := by
          rw [Nat.div_lt_iff_lt_mul (by norm_num)]
          calc n < 10 ^ (g1 + 1 + 1) := h2
          _ = 10 ^ (g1 + 1) * 10 := by ring
        rw [natDigitsF_succ (f + 1) n, natDigitsF_succ (g1 + 1) n, if_neg hn, if_neg hn,
          natDigitsF_acc (f + 1), natDigitsF_acc (g1 + 1), ih g1 (n / 10) hb1 hb2]

theorem natDigits_eq (n : ℕ) :
    natDigits n = if n < 10 then [digitCh n] else natDigits (n / 10) ++ [digitCh (n % 10)] := by
  by_cases h : n < 10
  · simp only [natDigits, natDigitsF_succ n n, if_pos h]
  · obtain ⟨m, rfl⟩ : ∃ m, n = m + 1 := ⟨n - 1, by omega⟩
    rw [if_neg h]
    show natDigitsF (m + 1 + 1) (m + 1) [] = _
    rw [natDigitsF_succ (m + 1) (m + 1), if_neg h, natDigitsF_acc (m + 1)]
    congr 1
    have hq1 : (m + 1) / 10 < 10 ^ (m + 1) :=
      lt_of_le_of_lt (Nat.div_le_self _ _) (Nat.lt_pow_self (by norm_num) (m + 1))
    exact natDigitsF_congr m ((m + 1) / 10) ((m + 1) / 10) hq1 (lt_pow10_succ_self _)

theorem natDigits_spec (n : ℕ) :
    natDigits n ≠ [] ∧ (∀ c ∈ natDigits n, isDigitC c = true) ∧ digitsVal (natDigits n) = n := by
  induction n using Nat.strong_induction_on with
  | _ n ih =>
    rw [natDigits_eq]
    by_cases h : n < 10
    · rw [if_pos h]
      refine ⟨by simp, ?_, ?_⟩
      · intro c hc
        rw [List.mem_singleton] at hc
        subst hc
        exact digitCh_isDigit n
      · rw [digitsVal_cons]
        simp [digitsVal, digitsValAux_nil, digitCh_val n h]
    · rw [if_neg h]
      obtain ⟨hne, hall, hval⟩ := ih (n / 10) (Nat.div_lt_self (by omega) (by norm_num))
      refine ⟨by simp, ?_, ?_⟩
      · intro c hc
        rcases List.mem_append.mp hc with hc | hc
        · exact hall c hc
        · rw [List.mem_singleton] at hc
          subst hc
          exact digitCh_isDigit _
      · rw [digitsVal_append, hval, digitsVal_cons,
          digitCh_val (n % 10) (Nat.mod_lt n (by norm_num))]
        simp only [List.length_singleton, List.length_nil, pow_one, pow_zero, mul_one]
        have : digitsVal ([] : List Char) = 0 := rfl
        omega

theorem natDigits_ne_nil (n : ℕ) : natDigits n ≠ [] := (natDigits_spec n).1

theorem natDigits_all (n : ℕ) : ∀ c ∈ natDigits n, isDigitC c = true := (natDigits_spec n).2.1

theorem natDigits_val (n : ℕ) : digitsVal (natDigits n) = n := (natDigits_spec n).2.2

theorem natDigits_len_le : ∀ n k, 1 ≤ k → n < 10 ^ k → (natDigits n).length ≤ k := by
  intro n
  induction n using Nat.strong_induction_on with
  | _ n ih =>
    intro k hk hnk
    rw [natDigits_eq]
    by_cases h : n < 10
    · rw [if_pos h]
      simpa using hk
    · rw [if_neg h]
      obtain ⟨k1, rfl⟩ : ∃ k1, k = k1 + 1 := ⟨k - 1, by omega⟩
      have hk1 : 1 ≤ k1 := by
        by_contra hc
        have hz : k1 = 0 := by omega
        subst hz
        simp only [zero_add, pow_one] at hnk
        omega
      have hb : n / 10 < 10 ^ k1 := by
        rw [Nat.div_lt_iff_lt_mul (by norm_num)]
        calc n < 10 ^ (k1 + 1) := hnk
        _ = 10 ^ k1 * 10 := by ring
      have hlen := ih (n / 10) (Nat.div_lt_self (by omega) (by norm_num)) k1 hk1 hb
      simp only [List.length_append, List.length_singleton]
      omega

theorem padZeros_len (k : ℕ) (ds : List Char) (h : ds.length ≤ k) :
    (padZeros k ds).length = k := by
  simp only [padZeros, List.length_append, List.length_replicate]
  omega

theorem padZeros_val (k : ℕ) (ds : List Char) : digitsVal (padZeros k ds) = digitsVal ds := by
  simp [padZeros, digitsVal_append, digitsVal_replicate_zero]

theorem padZeros_all (k : ℕ) (ds : List Char) (h : ∀ c ∈ ds, isDigitC c = true) :
    ∀ c ∈ padZeros k ds, isDigitC c = true := by
  intro c hc
  rcases List.mem_append.mp hc with hc | hc
  · rw [List.eq_of_mem_replicate hc]
    decide
  · exact h c hc

/-! ## takeWhile / dropWhile helpers -/

theorem takeWhile_all {α : Type} {p : α → Bool} :
    ∀ l : List α, (∀ c ∈ l, p c = true) → l.takeWhile p = l := by
  intro l h
  induction l with
  | nil => rfl
  | cons c r ih =>
      rw [List.takeWhile_cons, h c (List.mem_cons_self c r)]
      simp only [ite_true]
      rw [ih (fun x hx => h x (List.mem_cons_of_mem c hx))]

theorem dropWhile_all {α : Type} {p : α → Bool} :
    ∀ l : List α, (∀ c ∈ l, p c = true) → l.dropWhile p = [] := by
  intro l h
  induction l with
  | nil => rfl
  | cons c r ih =>
      rw [List.dropWhile_cons, h c (List.mem_cons_self c r)]
      simp only [ite_true]
      exact ih (fun x hx => h x (List.mem_cons_of_mem c hx))

theorem takeWhile_append_stop {α : Type} {p : α → Bool} (a : List α) (b : α) (rest : List α)
    (h : ∀ c ∈ a, p c = true) (hb : p b = false) :
    (a ++ b :: rest).takeWhile p = a ∧ (a ++ b :: rest).dropWhile p = b :: rest := by
  induction a with
  | nil =>
      simp only [List.nil_append]
      rw [List.takeWhile_cons, List.dropWhile_cons, hb]
      simp
  | cons c r ih =>
      have hc : p c = true := h c (List.mem_cons_self c r)
      have hr : ∀ x ∈ r, p x = true := fun x hx => h x (List.mem_cons_of_mem c hx)
      obtain ⟨ih1, ih2⟩ := ih hr
      constructor
      · rw [List.cons_append, List.takeWhile_cons, hc]
        simp only [ite_true]
        rw [ih1]
      · rw [List.cons_append, List.dropWhile_cons, hc]
        simp only [ite_true]
        exact ih2

/-! ## Float print/parse round trip -/

theorem isDigitC_ne (c : Char) (h : isDigitC c = true) :
    c ≠ '+' ∧ c ≠ '-' ∧ c ≠ '.' ∧ isPyWS c = false := by
  refine ⟨?_, ?_, ?_, ?_⟩
  · intro he; rw [he] at h; exact absurd h (by decide)
  · intro he; rw [he] at h; exact absurd h (by decide)
  · intro he; rw [he] at h; exact absurd h (by decide)
  · unfold isDigitC at h
    unfold isPyWS
    simp only [Bool.and_eq_true, decide_eq_true_eq] at h
    simp only [Bool.or_eq_false_iff, decide_eq_false_iff_not]
    omega

theorem splitSign_cons (c : Char) (l : List Char) :
    splitSign (c :: l) = if c = '+' then (1, l) else if c = '-' then (-1, l) else (1, c :: l) := rfl

theorem splitSign_digit (c : Char) (l : List Char) (h : isDigitC c = true) :
    splitSign (c :: l) = (1, c :: l) := by
  obtain ⟨h1, h2, -, -⟩ := isDigitC_ne c h
  rw [splitSign_cons, if_neg h1, if_neg h2]

theorem splitFrac_cons (c : Char) (l : List Char) :
    splitFrac (c :: l)
      = if c = '.' then (l.takeWhile isDigitC, l.dropWhile isDigitC) else ([], c :: l) := rfl

theorem decScale_mod {d k : ℕ} (h : decScale d = some k) : 10 ^ k % d = 0 := by
  have hp := List.find?_some h
  simpa using hp

theorem decScale_exists {d : ℕ} (hd : d ∣ 10 ^ 40) : ∃ k, decScale d = some k := by
  have hp : (10 ^ 40 % d == 0) = true := by
    simp only [beq_iff_eq]
    exact Nat.dvd_iff_mod_eq_zero.mp hd
  have hne : decScale d ≠ none := by
    intro hnone
    have hall := List.find?_eq_none.mp hnone 40 (by decide)
    exact hall hp
  obtain ⟨k, hk⟩ := Option.ne_none_iff_exists.mp hne
  exact ⟨k, hk.symm⟩

theorem decScale_dvd {d k : ℕ} (h : decScale d = some k) : d ∣ 10 ^ k :=
  Nat.dvd_iff_mod_eq_zero.mpr (decScale_mod h)

theorem pyFloatAfterSign_digits (sgn : ℤ) (a b : List Char) (ha : a ≠ [])
    (hda : ∀ c ∈ a, isDigitC c = true) (hdb : ∀ c ∈ b, isDigitC c = true) :
    pyFloatAfterSign sgn (a ++ '.' :: b)
      = some (mkRat (sgn * ((digitsVal a : ℤ) * 10 ^ b.length + (digitsVal b : ℤ)))
          (10 ^ b.length)) := by
  obtain ⟨htake, hdrop⟩ := takeWhile_append_stop a '.' b hda (by decide)
  have hae : (a ++ '.' :: b).takeWhile isDigitC ≠ [] := by rw [htake]; exact ha
  simp only [pyFloatAfterSign, htake, hdrop, splitFrac_cons, if_pos rfl,
    takeWhile_all b hdb, dropWhile_all b hdb]
  rw [if_neg]
  · rfl
  · simp only [Bool.and_eq_true, List.isEmpty_eq_true]
    rintro ⟨h1, -⟩
    exact ha h1

theorem mkRat_scale (q : ℚ) (k : ℕ) (hq : 0 ≤ q) (hdvd : q.den ∣ 10 ^ k) :
    mkRat ((q.num.toNat * (10 ^ k / q.den) : ℕ) : ℤ) (10 ^ k) = q := by
  set m := 10 ^ k / q.den with hmdef
  have hm : q.den * m = 10 ^ k := Nat.mul_div_cancel' hdvd
  have hm0 : m ≠ 0 := by
    intro h0
    rw [h0, Nat.mul_zero] at hm
    exact absurd hm.symm (by positivity)
  have hmq : ((m : ℕ) : ℚ) ≠ 0 := Nat.cast_ne_zero.mpr hm0
  have hnum : ((q.num.toNat : ℕ) : ℤ) = q.num := Int.toNat_of_nonneg (Rat.num_nonneg.mpr hq)
  rw [Rat.mkRat_eq_div]
  have e1 : (((q.num.toNat * m : ℕ) : ℤ) : ℚ) = (q.num : ℚ) * (m : ℚ) := by
    rw [Int.cast_natCast, Nat.cast_mul]
    congr 1
    exact_mod_cast hnum
  have e2 : ((10 ^ k : ℕ) : ℚ) = (q.den : ℚ) * (m : ℚ) := by exact_mod_cast hm.symm
  rw [e1, e2, mul_div_mul_right _ _ hmq]
  exact Rat.num_div_den q

theorem mkRat_mul10 (z : ℤ) : mkRat (z * 10) 10 = mkRat z 1 := by
  rw [Rat.mkRat_eq_div, Rat.mkRat_eq_div]
  push_cast
  rw [mul_div_assoc]
  norm_num

theorem digitsDot_charset (A B : List Char) (hA : ∀ c ∈ A, isDigitC c = true)
    (hB : ∀ c ∈ B, isDigitC c = true) :
    ∀ c ∈ A ++ '.' :: B, isDigitC c = true ∨ c = '.' := by
  intro c hc
  rcases List.mem_append.mp hc with hc | hc
  · exact Or.inl (hA c hc)
  · rcases List.mem_cons.mp hc with hc | hc
    · exact Or.inr hc
    · exact Or.inl (hB c hc)

theorem floatStrPos_eq (q : ℚ) (k : ℕ) (hk : decScale q.den = some k) :
    floatStrPos q
      = (if k = 0 then natDigits (q.num.toNat * (10 ^ k / q.den)) ++ ['.', '0']
         else natDigits (q.num.toNat * (10 ^ k / q.den) / 10 ^ k)
           ++ '.' :: padZeros k (natDigits (q.num.toNat * (10 ^ k / q.den) % 10 ^ k))) := by
  unfold floatStrPos
  rw [hk]

theorem mkRat_mul_left (a b : ℤ) (d : ℕ) : mkRat (a * b) d = (a : ℚ) * mkRat b d := by
  rw [Rat.mkRat_eq_div, Rat.mkRat_eq_div]
  push_cast
  ring

theorem floatStrPos_parse (q : ℚ) (hq : 0 ≤ q) (hdvd : q.den ∣ 10 ^ 40) (sgn : ℤ) :
    pyFloatAfterSign sgn (floatStrPos q) = some ((sgn : ℚ) * q)
      ∧ splitSign (floatStrPos q) = (1, floatStrPos q)
      ∧ (∀ c ∈ floatStrPos q, isDigitC c = true ∨ c = '.') := by
  obtain ⟨k, hk⟩ := decScale_exists hdvd
  have hkdvd : q.den ∣ 10 ^ k := decScale_dvd hk
  have hval := mkRat_scale q k hq hkdvd
  rw [floatStrPos_eq q k hk]
  by_cases hk0 : k = 0
  · subst hk0
    rw [if_pos rfl]
    set n := q.num.toNat * (10 ^ 0 / q.den) with hn
    have h0d : ∀ c ∈ (['0'] : List Char), isDigitC c = true := by
      intro c hc
      rw [List.mem_singleton] at hc
      subst hc
      decide
    have hpar := pyFloatAfterSign_digits sgn (natDigits n) ['0'] (natDigits_ne_nil n)
      (natDigits_all n) h0d
    refine ⟨?_, ?_, digitsDot_charset _ _ (natDigits_all n) h0d⟩
    · rw [hpar, natDigits_val]
      simp only [List.length_singleton, pow_one]
      have harg : ((n : ℤ) * 10 + (digitsVal ['0'] : ℤ)) = (n : ℤ) * 10 := by
        have h00 : digitsVal ['0'] = 0 := rfl
        rw [h00]
        simp
      rw [harg, mkRat_mul_left, mkRat_mul10]
      rw [pow_zero] at hval
      rw [show mkRat (n : ℤ) 1 = q from hval]
    · obtain ⟨c, t, hct⟩ := List.exists_cons_of_ne_nil (natDigits_ne_nil n)
      rw [hct, List.cons_append]
      exact splitSign_digit c _ (natDigits_all n c (hct ▸ List.mem_cons_self c t))
  · rw [if_neg hk0]
    set n := q.num.toNat * (10 ^ k / q.den) with hn
    have hk1 : 1 ≤ k := by omega
    have hmlt : n % 10 ^ k < 10 ^ k := Nat.mod_lt _ (by positivity)
    have hlen : (natDigits (n % 10 ^ k)).length ≤ k := natDigits_len_le _ k hk1 hmlt
    have hb : ∀ c ∈ padZeros k (natDigits (n % 10 ^ k)), isDigitC c = true :=
      padZeros_all k _ (natDigits_all _)
    have hpar := pyFloatAfterSign_digits sgn (natDigits (n / 10 ^ k))
      (padZeros k (natDigits (n % 10 ^ k))) (natDigits_ne_nil _) (natDigits_all _) hb
    refine ⟨?_, ?_, digitsDot_charset _ _ (natDigits_all _) hb⟩
    · rw [hpar, natDigits_val, padZeros_val, natDigits_val, padZeros_len k _ hlen]
      have hdm : n / 10 ^ k * 10 ^ k + n % 10 ^ k = n := by
        rw [Nat.mul_comm (n / 10 ^ k) (10 ^ k)]
        exact Nat.div_add_mod n (10 ^ k)
      have harg : (((n / 10 ^ k : ℕ) : ℤ) * 10 ^ k + ((n % 10 ^ k : ℕ) : ℤ))
          = ((n : ℕ) : ℤ) := by
        exact_mod_cast congrArg (fun x : ℕ => (x : ℤ)) hdm
      rw [harg, mkRat_mul_left, hval]
    · obtain ⟨c, t, hct⟩ := List.exists_cons_of_ne_nil (natDigits_ne_nil (n / 10 ^ k))
      rw [hct, List.cons_append]
      exact splitSign_digit c _ (natDigits_all _ c (hct ▸ List.mem_cons_self c t))

theorem dropWhile_nohit {α : Type} {p : α → Bool} :
    ∀ l : List α, (∀ c ∈ l, p c = false) → l.dropWhile p = l := by
  intro l h
  cases l with
  | nil => rfl
  | cons c r =>
      rw [List.dropWhile_cons, h c (List.mem_cons_self c r)]
      simp

theorem stripChars_id (cs : List Char) (h : ∀ c ∈ cs, isPyWS c = false) : stripChars cs = cs := by
  unfold stripChars
  rw [dropWhile_nohit cs h,
    dropWhile_nohit cs.reverse (fun c hc => h c (List.mem_reverse.mp hc)),
    List.reverse_reverse]

theorem floatStrPos_noWS (q : ℚ) (hcs : ∀ c ∈ floatStrPos q, isDigitC c = true ∨ c = '.') :
    ∀ c ∈ floatStrPos q, isPyWS c = false := by
  intro c hc
  rcases hcs c hc with hd | rfl
  · exact (isDigitC_ne c hd).2.2.2
  · decide

theorem pyFloat_floatStr (q : ℚ) (hdvd : q.den ∣ 10 ^ 40) : pyFloat (floatStr q) = some q := by
  unfold pyFloat floatStr
  by_cases hneg : q < 0
  · rw [if_pos hneg]
    have hq : 0 ≤ -q := by linarith
    have hden : (-q).den = q.den := Rat.neg_den q
    obtain ⟨hp, hsp, hcs⟩ := floatStrPos_parse (-q) hq (by rw [hden]; exact hdvd) (-1)
    have hnows : ∀ c ∈ ('-' :: floatStrPos (-q)), isPyWS c = false := by
      intro c hc
      rcases List.mem_cons.mp hc with rfl | hc
      · decide
      · exact floatStrPos_noWS (-q) hcs c hc
    rw [show (String.mk ('-' :: floatStrPos (-q))).data = '-' :: floatStrPos (-q) from rfl]
    rw [stripChars_id _ hnows]
    unfold pyFloatCore
    rw [show splitSign ('-' :: floatStrPos (-q)) = (-1, floatStrPos (-q)) from by
      rw [splitSign_cons, if_neg (by decide), if_pos rfl]]
    rw [hp]
    congr 1
    push_cast
    ring
  · rw [if_neg hneg]
    have hq : 0 ≤ q := by linarith
    obtain ⟨hp, hsp, hcs⟩ := floatStrPos_parse q hq hdvd 1
    rw [show (String.mk (floatStrPos q)).data = floatStrPos q from rfl]
    rw [stripChars_id _ (floatStrPos_noWS q hcs)]
    unfold pyFloatCore
    rw [hsp, hp]
    congr 1
    push_cast
    ring

/-! ## CSV write/read round trip -/

theorem csvStep_unq_plain (f : List Char) (r : List String) (rs : List (List String)) (c : Char)
    (hq : (c = '"' && f.isEmpty) = false) (hcm : c ≠ ',') (hnl : c ≠ '\n') :
    csvStep ⟨f, r, rs, false, false⟩ c = ⟨c :: f, r, rs, false, false⟩ := by
  simp [csvStep, hq, hcm, hnl]

theorem csvStep_unq_comma (f : List Char) (r : List String) (rs : List (List String)) :
    csvStep ⟨f, r, rs, false, false⟩ ','
      = ⟨[], String.mk f.reverse :: r, rs, false, false⟩ := by
  simp [csvStep, doneField]

theorem csvStep_unq_nl (f : List Char) (r : List String) (rs : List (List String)) :
    csvStep ⟨f, r, rs, false, false⟩ '\n'
      = ⟨[], [], (String.mk f.reverse :: r).reverse :: rs, false, false⟩ := by
  simp [csvStep, doneField]

theorem csvStep_unq_open (r : List String) (rs : List (List String)) :
    csvStep ⟨[], r, rs, false, false⟩ '"' = ⟨[], r, rs, true, false⟩ := by
  simp [csvStep]

theorem csvStep_q_plain (f : List Char) (r : List String) (rs : List (List String)) (c : Char)
    (hc : c ≠ '"') :
    csvStep ⟨f, r, rs, true, false⟩ c = ⟨c :: f, r, rs, true, false⟩ := by
  simp [csvStep, hc]

theorem csvStep_q_quote (f : List Char) (r : List String) (rs : List (List String)) :
    csvStep ⟨f, r, rs, true, false⟩ '"' = ⟨f, r, rs, true, true⟩ := by
  simp [csvStep]

theorem csvStep_pq_quote (f : List Char) (r : List String) (rs : List (List String)) :
    csvStep ⟨f, r, rs, true, true⟩ '"' = ⟨'"' :: f, r, rs, true, false⟩ := by
  simp [csvStep]

theorem csvStep_pq_comma (f : List Char) (r : List String) (rs : List (List String)) :
    csvStep ⟨f, r, rs, true, true⟩ ','
      = ⟨[], String.mk f.reverse :: r, rs, false, false⟩ := by
  simp [csvStep, doneField]

theorem csvStep_pq_nl (f : List Char) (r : List String) (rs : List (List String)) :
    csvStep ⟨f, r, rs, true, true⟩ '\n'
      = ⟨[], [], (String.mk f.reverse :: r).reverse :: rs, false, false⟩ := by
  simp [csvStep, doneField]

theorem not_needsQuote_plain (f : List Char) (h : needsQuote f = false) : ∀ c ∈ f, plainC c := by
  intro c hc
  unfold needsQuote at h
  rw [List.any_eq_false] at h
  have hthis := h c hc
  simp only [Bool.or_eq_true, decide_eq_true_eq] at hthis
  push_neg at hthis
  exact ⟨hthis.1.1.1, hthis.1.1.2, hthis.1.2, hthis.2⟩

theorem foldl_plain_field (f : List Char) (hf : ∀ c ∈ f, plainC c) :
    ∀ (acc : List Char) (r : List String) (rs : List (List String)),
      List.foldl csvStep ⟨acc, r, rs, false, false⟩ f = ⟨f.reverse ++ acc, r, rs, false, false⟩ := by
  induction f with
  | nil => intro acc r rs; simp
  | cons c t ih =>
      intro acc r rs
      obtain ⟨h1, h2, h3, -⟩ := hf c (List.mem_cons_self c t)
      rw [List.foldl_cons,
        csvStep_unq_plain acc r rs c (by simp [h2]) h1 h3,
        ih (fun x hx => hf x (List.mem_cons_of_mem c hx)) (c :: acc) r rs]
      simp

theorem foldl_escQ (f : List Char) :
    ∀ (acc : List Char) (r : List String) (rs : List (List String)),
      List.foldl csvStep ⟨acc, r, rs, true, false⟩ (escQ f)
        = ⟨f.reverse ++ acc, r, rs, true, false⟩ := by
  induction f with
  | nil => intro acc r rs; simp [escQ]
  | cons c t ih =>
      intro acc r rs
      by_cases hc : c = '"'
      · subst hc
        show List.foldl csvStep _ ('"' :: '"' :: escQ t) = _
        rw [List.foldl_cons, csvStep_q_quote, List.foldl_cons, csvStep_pq_quote, ih]
        simp
      · show List.foldl csvStep _ (if c = '"' then '"' :: '"' :: escQ t else c :: escQ t) = _
        rw [if_neg hc, List.foldl_cons, csvStep_q_plain acc r rs c hc, ih]
        simp

theorem mk_data (s : String) : String.mk s.data = s := rfl

theorem foldl_field_sep (s : String) (r : List String) (rs : List (List String))
    (sep : Char) (rest : List Char) (hsep : sep = ',' ∨ sep = '\n') :
    List.foldl csvStep ⟨[], r, rs, false, false⟩ (quoteF s.data ++ sep :: rest)
      = List.foldl csvStep
          (if sep = ',' then ⟨[], s :: r, rs, false, false⟩
           else ⟨[], [], (s :: r).reverse :: rs, false, false⟩) rest := by
  by_cases hq : needsQuote s.data
  · have hsh : quoteF s.data ++ sep :: rest
        = '"' :: (escQ s.data ++ ('"' :: sep :: rest)) := by
      simp [quoteF, hq]
    rw [hsh, List.foldl_cons, csvStep_unq_open, List.foldl_append, foldl_escQ,
      List.foldl_cons, List.append_nil, csvStep_q_quote, List.foldl_cons]
    rcases hsep with rfl | rfl
    · rw [csvStep_pq_comma, if_pos rfl, List.reverse_reverse, mk_data]
    · rw [csvStep_pq_nl, if_neg (by decide), List.reverse_reverse, mk_data]
  · have hpl := not_needsQuote_plain s.data (by simpa using hq)
    have hsh : quoteF s.data = s.data := by simp [quoteF, hq]
    rw [hsh, List.foldl_append, foldl_plain_field s.data hpl [] r rs, List.foldl_cons,
      List.append_nil]
    rcases hsep with rfl | rfl
    · rw [csvStep_unq_comma, if_pos rfl, List.reverse_reverse, mk_data]
    · rw [csvStep_unq_nl, if_neg (by decide), List.reverse_reverse, mk_data]

theorem foldl_row (fs : List String) (hne : fs ≠ []) :
    ∀ (r : List String) (rs : List (List String)) (rest : List Char),
      List.foldl csvStep ⟨[], r, rs, false, false⟩
          (joinComma (fs.map (fun s => quoteF s.data)) ++ '\n' :: rest)
        = List.foldl csvStep ⟨[], [], (r.reverse ++ fs) :: rs, false, false⟩ rest := by
  induction fs with
  | nil => exact absurd rfl hne
  | cons s t ih =>
      intro r rs rest
      cases t with
      | nil =>
          show List.foldl csvStep _ (quoteF s.data ++ '\n' :: rest) = _
          rw [foldl_field_sep s r rs '\n' rest (Or.inr rfl), if_neg (by decide)]
          congr 2
          simp
      | cons s2 t2 =>
          show List.foldl csvStep _
            ((quoteF s.data ++ ',' :: joinComma ((s2 :: t2).map (fun s => quoteF s.data)))
              ++ '\n' :: rest) = _
          rw [List.append_assoc, List.cons_append,
            foldl_field_sep s r rs ',' _ (Or.inl rfl), if_pos rfl,
            ih (by simp) (s :: r) rs rest]
          congr 3
          simp

theorem foldl_rows (rows : List (List String)) (hne : ∀ r ∈ rows, r ≠ []) :
    ∀ rs0 : List (List String),
      List.foldl csvStep ⟨[], [], rs0, false, false⟩
          ((rows.map (fun r => joinComma (r.map (fun s => quoteF s.data)) ++ ['\n'])).flatten)
        = ⟨[], [], rows.reverse ++ rs0, false, false⟩ := by
  induction rows with
  | nil => intro rs0; simp
  | cons r t ih =>
      intro rs0
      simp only [List.map_cons, List.flatten_cons, List.append_assoc, List.singleton_append]
      rw [foldl_row r (hne r (List.mem_cons_self r t)) [] rs0,
        ih (fun x hx => hne x (List.mem_cons_of_mem r hx)) (([].reverse ++ r) :: rs0)]
      congr 1
      simp

theorem textReadAux_row (cs : List Char) (h : ∀ c ∈ cs, c ≠ '\r' ∧ c ≠ '\n') :
    ∀ (b : Bool) (rest : List Char),
      textReadAux b (cs ++ '\r' :: '\n' :: rest) = cs ++ '\n' :: textReadAux false rest := by
  induction cs with
  | nil =>
      intro b rest
      simp [textReadAux]
  | cons c t ih =>
      intro b rest
      obtain ⟨hr, hn⟩ := h c (List.mem_cons_self c t)
      simp only [List.cons_append]
      rw [show textReadAux b (c :: (t ++ '\r' :: '\n' :: rest))
          = c :: textReadAux false (t ++ '\r' :: '\n' :: rest) from by
        simp [textReadAux, hr, hn]]
      rw [ih (fun x hx => h x (List.mem_cons_of_mem c hx)) false rest]

theorem mem_escQ (c : Char) : ∀ f : List Char, c ∈ escQ f → c ∈ f ∨ c = '"' := by
  intro f
  induction f with
  | nil => intro h; exact absurd h (by simp [escQ])
  | cons d t ih =>
      intro hc
      by_cases hd : d = '"'
      · subst hd
        rw [show escQ ('"' :: t) = '"' :: '"' :: escQ t from by simp [escQ]] at hc
        rcases List.mem_cons.mp hc with rfl | hc
        · exact Or.inr rfl
        rcases List.mem_cons.mp hc with rfl | hc
        · exact Or.inr rfl
        · rcases ih hc with h | h
          · exact Or.inl (List.mem_cons_of_mem _ h)
          · exact Or.inr h
      · rw [show escQ (d :: t) = d :: escQ t from by simp [escQ, hd]] at hc
        rcases List.mem_cons.mp hc with rfl | hc
        · exact Or.inl (List.mem_cons_self _ _)
        · rcases ih hc with h | h
          · exact Or.inl (List.mem_cons_of_mem _ h)
          · exact Or.inr h

theorem mem_quoteF (c : Char) (f : List Char) : c ∈ quoteF f → c ∈ f ∨ c = '"' := by
  intro hc
  unfold quoteF at hc
  by_cases hq : needsQuote f
  · rw [if_pos hq] at hc
    rcases List.mem_cons.mp hc with rfl | hc
    · exact Or.inr rfl
    rcases List.mem_append.mp hc with hc | hc
    · exact mem_escQ c f hc
    · rw [List.mem_singleton] at hc
      exact Or.inr hc
  · rw [if_neg hq] at hc
    exact Or.inl hc

theorem mem_joinComma (c : Char) : ∀ ls : List (List Char),
    c ∈ joinComma ls → (∃ l ∈ ls, c ∈ l) ∨ c = ',' := by
  intro ls
  induction ls with
  | nil => intro h; exact absurd h (by simp [joinComma])
  | cons f t ih =>
      intro hc
      cases t with
      | nil =>
          rw [show joinComma [f] = f from rfl] at hc
          exact Or.inl ⟨f, List.mem_cons_self f [], hc⟩
      | cons g t2 =>
          rw [show joinComma (f :: g :: t2) = f ++ ',' :: joinComma (g :: t2) from rfl] at hc
          rcases List.mem_append.mp hc with hc | hc
          · exact Or.inl ⟨f, List.mem_cons_self _ _, hc⟩
          rcases List.mem_cons.mp hc with rfl | hc
          · exact Or.inr rfl
          · rcases ih hc with ⟨l, hl, hcl⟩ | h
            · exact Or.inl ⟨l, List.mem_cons_of_mem f hl, hcl⟩
            · exact Or.inr h

theorem rowBody_noCRLF (r : List String)
    (h : ∀ s ∈ r, ∀ c ∈ s.data, c ≠ '\r' ∧ c ≠ '\n') :
    ∀ c ∈ joinComma (r.map (fun s => quoteF s.data)), c ≠ '\r' ∧ c ≠ '\n' := by
  intro c hc
  rcases mem_joinComma c _ hc with ⟨l, hl, hcl⟩ | rfl
  · rw [List.mem_map] at hl
    obtain ⟨s, hs, rfl⟩ := hl
    rcases mem_quoteF c s.data hcl with hcf | rfl
    · exact h s hs c hcf
    · exact ⟨by decide, by decide⟩
  · exact ⟨by decide, by decide⟩

theorem textRead_writeCSV (rows : List (List String))
    (hok : ∀ r ∈ rows, ∀ s ∈ r, ∀ c ∈ s.data, c ≠ '\r' ∧ c ≠ '\n') :
    textRead (writeCSVChars rows)
      = (rows.map (fun r => joinComma (r.map (fun s => quoteF s.data)) ++ ['\n'])).flatten := by
  unfold textRead
  induction rows with
  | nil => rfl
  | cons r t ih =>
      show textReadAux false (writeRowChars r ++ writeCSVChars t) = _
      rw [show writeRowChars r ++ writeCSVChars t
          = joinComma (r.map (fun s => quoteF s.data)) ++ '\r' :: '\n' :: writeCSVChars t from by
        simp [writeRowChars]]
      rw [textReadAux_row _ (rowBody_noCRLF r (hok r (List.mem_cons_self r t))) false _]
      rw [ih (fun x hx => hok x (List.mem_cons_of_mem r hx))]
      simp

theorem csvRows_writeCSV (rows : List (List String)) (hne : ∀ r ∈ rows, r ≠ [])
    (hok : ∀ r ∈ rows, ∀ s ∈ r, ∀ c ∈ s.data, c ≠ '\r' ∧ c ≠ '\n') :
    csvRows (textRead (writeCSVChars rows)) = rows := by
  rw [textRead_writeCSV rows hok]
  unfold csvRows csvInit
  rw [show (⟨[], [], [], false, false⟩ : CsvSt) = ⟨[], [], ([] : List (List String)), false, false⟩ from rfl]
  rw [foldl_rows rows hne []]
  unfold csvFinish
  simp

theorem dictVal_std (d c a ds : String) :
    dictVal stdHeader [d, c, a, ds] "date" = some (some d)
      ∧ dictVal stdHeader [d, c, a, ds] "category" = some (some c)
      ∧ dictVal stdHeader [d, c, a, ds] "amount" = some (some a)
      ∧ dictVal stdHeader [d, c, a, ds] "description" = some (some ds) := by
  refine ⟨?_, ?_, ?_, ?_⟩
  · unfold dictVal
    rw [show stdHeader.findIdx? (fun h => h = "date") = some 0 from by decide]
    rfl
  · unfold dictVal
    rw [show stdHeader.findIdx? (fun h => h = "category") = some 1 from by decide]
    rfl
  · unfold dictVal
    rw [show stdHeader.findIdx? (fun h => h = "amount") = some 2 from by decide]
    rfl
  · unfold dictVal
    rw [show stdHeader.findIdx? (fun h => h = "description") = some 3 from by decide]
    rfl

theorem processRows_cons_good (d c a ds : String) (q : ℚ) (rs : List (List String))
    (hq : pyFloat a = some q) :
    processRows stdHeader ([d, c, a, ds] :: rs)
      = ⟨some d, some c, q, some ds⟩ :: processRows stdHeader rs := by
  obtain ⟨h0, h1, h2, h3⟩ := dictVal_std d c a ds
  simp only [processRows]
  rw [show ([d, c, a, ds] : List String).isEmpty = false from rfl]
  simp only [Bool.false_eq_true, if_false, h2, hq, h0, h1, h3]
  rw [show (hasKey stdHeader "date" && hasKey stdHeader "category"
      && hasKey stdHeader "description") = true from by decide]
  simp only [if_true]
  rfl

theorem splitDash_ne_nil : ∀ cs : List Char, splitDash cs ≠ [] := by
  intro cs
  cases cs with
  | nil => simp [splitDash]
  | cons c r =>
      by_cases hc : c = '-'
      · simp [splitDash, hc]
      · simp only [splitDash, hc, if_false]
        cases hs : splitDash r with
        | nil => simp
        | cons a as => simp

theorem splitDash_recover : ∀ cs : List Char, joinDash (splitDash cs) = cs := by
  intro cs
  induction cs with
  | nil => rfl
  | cons c r ih =>
      by_cases hc : c = '-'
      · subst hc
        rw [show splitDash ('-' :: r) = [] :: splitDash r from by simp [splitDash]]
        cases hs : splitDash r with
        | nil => exact absurd hs (splitDash_ne_nil r)
        | cons a as =>
            rw [show joinDash ([] :: a :: as) = [] ++ '-' :: joinDash (a :: as) from rfl]
            rw [hs] at ih
            rw [List.nil_append, ih]
      · rw [show splitDash (c :: r) = (match splitDash r with
            | [] => [[c]]
            | a :: as => (c :: a) :: as) from by simp [splitDash, hc]]
        cases hs : splitDash r with
        | nil => exact absurd hs (splitDash_ne_nil r)
        | cons a as =>
            rw [hs] at ih
            cases as with
            | nil =>
                rw [show joinDash [c :: a] = c :: a from rfl]
                rw [show joinDash [a] = a from rfl] at ih
                rw [ih]
            | cons b bs =>
                rw [show joinDash ((c :: a) :: b :: bs) = (c :: a) ++ '-' :: joinDash (b :: bs) from rfl]
                rw [show joinDash (a :: b :: bs) = a ++ '-' :: joinDash (b :: bs) from rfl] at ih
                rw [List.cons_append, ih]

theorem isDayChars_class (cs : List Char) (h : isDayChars cs = true) :
    ∀ c ∈ cs, 32 ≤ c.toNat ∧ c.toNat ≤ 57 := by
  match cs with
  | [] => exact absurd h (by decide)
  | [c] =>
      simp only [isDayChars, betw, Bool.and_eq_true, decide_eq_true_eq] at h
      intro x hx
      rw [List.mem_singleton] at hx
      subst hx
      omega
  | [c, d] =>
      simp only [isDayChars, betw, Bool.or_eq_true, Bool.and_eq_true, decide_eq_true_eq] at h
      have hb : (32 ≤ c.toNat ∧ c.toNat ≤ 57) ∧ (32 ≤ d.toNat ∧ d.toNat ≤ 57) := by
        rcases h with ((⟨h1, h2⟩ | ⟨h1, h2⟩) | ⟨h1, h2⟩) | ⟨h1, h2⟩
        · rcases h2 with h2 | h2 <;> omega
        · rcases h1 with h1 | h1 <;> omega
        · omega
        · omega
      intro x hx
      rcases List.mem_cons.mp hx with rfl | hx
      · exact hb.1
      rcases List.mem_cons.mp hx with rfl | hx
      · exact hb.2
      · exact absurd hx (List.not_mem_nil x)
  | _ :: _ :: _ :: _ => exact absurd h (by simp [isDayChars])

theorem isMonthChars_class (cs : List Char) (h : isMonthChars cs = true) :
    ∀ c ∈ cs, 32 ≤ c.toNat ∧ c.toNat ≤ 57 := by
  match cs with
  | [] => exact absurd h (by decide)
  | [c] =>
      simp only [isMonthChars, betw, Bool.and_eq_true, decide_eq_true_eq] at h
      intro x hx
      rw [List.mem_singleton] at hx
      subst hx
      omega
  | [c, d] =>
      simp only [isMonthChars, betw, Bool.or_eq_true, Bool.and_eq_true, decide_eq_true_eq] at h
      have hb : (32 ≤ c.toNat ∧ c.toNat ≤ 57) ∧ (32 ≤ d.toNat ∧ d.toNat ≤ 57) := by
        rcases h with ⟨h1, h2⟩ | ⟨h1, h2⟩ <;> omega
      intro x hx
      rcases List.mem_cons.mp hx with rfl | hx
      · exact hb.1
      rcases List.mem_cons.mp hx with rfl | hx
      · exact hb.2
      · exact absurd hx (List.not_mem_nil x)
  | _ :: _ :: _ :: _ => exact absurd h (by simp [isMonthChars])

theorem isYearChars_class (cs : List Char) (h : isYearChars cs = true) :
    ∀ c ∈ cs, 32 ≤ c.toNat ∧ c.toNat ≤ 57 := by
  unfold isYearChars at h
  rw [Bool.and_eq_true, List.all_eq_true] at h
  intro x hx
  have := h.2 x hx
  simp only [betw, Bool.and_eq_true, decide_eq_true_eq] at this
  omega

theorem validate_date_chars (s : String) (h : validate_date s = true) :
    ∀ ch ∈ s.data, 32 ≤ ch.toNat ∧ ch.toNat ≤ 57 := by
  unfold validate_date at h
  have hrec := splitDash_recover s.data
  cases hsp : splitDash s.data with
  | nil => exact absurd hsp (splitDash_ne_nil s.data)
  | cons d t =>
      rw [hsp] at h hrec
      cases t with
      | nil => exact absurd h (by simp)
      | cons m t2 =>
          cases t2 with
          | nil => exact absurd h (by simp)
          | cons y t3 =>
              cases t3 with
              | cons z t4 => exact absurd h (by simp)
              | nil =>
                  simp only [Bool.and_eq_true] at h
                  obtain ⟨⟨⟨⟨hd, hm⟩, hy⟩, -⟩, -⟩ := h
                  rw [show joinDash [d, m, y] = d ++ '-' :: (m ++ '-' :: y) from rfl] at hrec
                  intro ch hch
                  rw [← hrec] at hch
                  rcases List.mem_append.mp hch with hch | hch
                  · exact isDayChars_class d hd ch hch
                  rcases List.mem_cons.mp hch with rfl | hch
                  · refine ⟨by decide, by decide⟩
                  rcases List.mem_append.mp hch with hch | hch
                  · exact isMonthChars_class m hm ch hch
                  rcases List.mem_cons.mp hch with rfl | hch
                  · refine ⟨by decide, by decide⟩
                  · exact isYearChars_class y hy ch hch

theorem WFExpense_fields (e : Expense) (h : WFExpense e = true) :
    ∃ d c ds, e.date = some d ∧ e.category = some c ∧ e.description = some ds
      ∧ validate_date d = true ∧ (!c.isEmpty && pyIsalpha c.data) = true
      ∧ 0 < e.amount ∧ e.amount.den ∣ 10 ^ 40
      ∧ ds.isEmpty = false ∧ (∀ ch ∈ ds.data, ch ≠ '\r' ∧ ch ≠ '\n') := by
  unfold WFExpense at h
  cases hd : e.date with
  | none => rw [hd] at h; exact absurd h (by simp)
  | some d =>
  cases hc : e.category with
  | none => rw [hc] at h; exact absurd h (by simp)
  | some c =>
  cases hds : e.description with
  | none => rw [hds] at h; exact absurd h (by simp)
  | some ds =>
  rw [hd, hc, hds] at h
  simp only [Bool.and_eq_true] at h
  obtain ⟨⟨⟨⟨hvd, hcat⟩, hpos⟩, hden⟩, hdesc⟩ := h
  refine ⟨d, c, ds, rfl, rfl, rfl, hvd, by rw [Bool.and_eq_true]; exact hcat, ?_, ?_, ?_, ?_⟩
  · exact of_decide_eq_true hpos
  · rw [beq_iff_eq] at hden
    exact Nat.dvd_iff_mod_eq_zero.mpr hden
  · obtain ⟨h1, -⟩ := hdesc
    cases hds2 : ds.isEmpty
    · rfl
    · rw [hds2] at h1; exact absurd h1 (by decide)
  · obtain ⟨-, h2⟩ := hdesc
    rw [List.all_eq_true] at h2
    intro ch hch
    have hch2 := h2 ch hch
    simp only [Bool.and_eq_true, Bool.not_eq_true', beq_eq_false_iff_ne] at hch2
    exact hch2

theorem isAlphaC_not_ctl (c : Char) (h : isAlphaC c = true) : c ≠ '\r' ∧ c ≠ '\n' := by
  constructor
  · intro he; rw [he] at h; exact absurd h (by decide)
  · intro he; rw [he] at h; exact absurd h (by decide)

theorem floatStr_chars (q : ℚ) (hq : 0 < q) (hdvd : q.den ∣ 10 ^ 40) :
    ∀ c ∈ (floatStr q).data, c ≠ '\r' ∧ c ≠ '\n' := by
  unfold floatStr
  rw [if_neg (not_lt.mpr hq.le)]
  have hcs := (floatStrPos_parse q hq.le hdvd 1).2.2
  intro c hc
  rcases hcs c hc with hd | rfl
  · constructor
    · intro he; rw [he] at hd; exact absurd hd (by decide)
    · intro he; rw [he] at hd; exact absurd hd (by decide)
  · exact ⟨by decide, by decide⟩

theorem expenseRow_eq (e : Expense) (d c ds : String)
    (hd : e.date = some d) (hc : e.category = some c) (hds : e.description = some ds) :
    expenseRow e = [d, c, floatStr e.amount, ds] := by
  unfold expenseRow
  rw [hd, hc, hds]
  rfl

theorem processRows_save (es : List Expense) (hwf : ∀ e ∈ es, WFExpense e = true) :
    processRows stdHeader (es.map expenseRow) = es := by
  induction es with
  | nil => rfl
  | cons e t ih =>
      obtain ⟨d, c, ds, hd, hc, hds, hvd, hcat, hpos, hdvd, hdse, hdsc⟩ :=
        WFExpense_fields e (hwf e (List.mem_cons_self e t))
      rw [List.map_cons, expenseRow_eq e d c ds hd hc hds,
        processRows_cons_good d c (floatStr e.amount) ds e.amount _
          (pyFloat_floatStr e.amount hdvd),
        ih (fun x hx => hwf x (List.mem_cons_of_mem e hx))]
      congr 1
      obtain ⟨ed, ec, ea, eds⟩ := e
      show Expense.mk (some d) (some c) ea (some ds) = Expense.mk ed ec ea eds
      rw [show ed = some d from hd, show ec = some c from hc, show eds = some ds from hds]

theorem toNat_range_not_ctl (c : Char) (h32 : 32 ≤ c.toNat) : c ≠ '\r' ∧ c ≠ '\n' := by
  constructor
  · intro he; rw [he] at h32; exact absurd h32 (by decide)
  · intro he; rw [he] at h32; exact absurd h32 (by decide)

theorem save_rows_ok (es : List Expense) (hwf : ∀ e ∈ es, WFExpense e = true) :
    (∀ r ∈ stdHeader :: es.map expenseRow, r ≠ [])
      ∧ (∀ r ∈ stdHeader :: es.map expenseRow, ∀ s ∈ r, ∀ ch ∈ s.data,
          ch ≠ '\r' ∧ ch ≠ '\n') := by
  constructor
  · intro r hr
    rcases List.mem_cons.mp hr with rfl | hr
    · simp [stdHeader]
    · rw [List.mem_map] at hr
      obtain ⟨e, -, rfl⟩ := hr
      simp [expenseRow]
  · intro r hr
    rcases List.mem_cons.mp hr with rfl | hr
    · intro s hs ch hch
      fin_cases hs <;> fin_cases hch <;> exact ⟨by decide, by decide⟩
    · rw [List.mem_map] at hr
      obtain ⟨e, he, rfl⟩ := hr
      obtain ⟨d, c, ds, hd, hc, hds, hvd, hcat, hpos, hdvd, -, hdsc⟩ :=
        WFExpense_fields e (hwf e he)
      rw [expenseRow_eq e d c ds hd hc hds]
      intro s hs ch hch
      rcases List.mem_cons.mp hs with rfl | hs
      · exact toNat_range_not_ctl ch (validate_date_chars s hvd ch hch).1
      rcases List.mem_cons.mp hs with rfl | hs
      · rw [Bool.and_eq_true] at hcat
        have halpha := hcat.2
        unfold pyIsalpha at halpha
        rw [Bool.and_eq_true, List.all_eq_true] at halpha
        exact isAlphaC_not_ctl ch (halpha.2 ch hch)
      rcases List.mem_cons.mp hs with rfl | hs
      · exact floatStr_chars e.amount hpos hdvd ch hch
      rcases List.mem_cons.mp hs with rfl | hs
      · exact hdsc ch hch
      · exact absurd hs (List.not_mem_nil s)

theorem load_save_roundtrip (es : List Expense) (hwf : ∀ e ∈ es, WFExpense e = true) :
    load_expenses (some (save_expenses es)) = es := by
  obtain ⟨hne, hok⟩ := save_rows_ok es hwf
  simp only [load_expenses, save_expenses]
  rw [csvRows_writeCSV _ hne hok]
  exact processRows_save es hwf

/-! ## Characterisation of a completed `add_expense` -/

theorem add_expense_some (t : Tracker) (dIn cIn aIn dsIn : String) (t2 : Tracker)
    (h : add_expense t dIn cIn aIn dsIn = some t2) :
    ∃ a : ℚ, pyFloat (pyStrip aIn) = some a ∧ 0 < a
      ∧ validate_date (pyStrip dIn) = true
      ∧ (!(pyStrip cIn).isEmpty && pyIsalpha (pyStrip cIn).data) = true
      ∧ (pyStrip dsIn).isEmpty = false
      ∧ t2 = { t with expenses := t.expenses
          ++ [⟨some (pyStrip dIn), some (pyCapitalize (pyStrip cIn)), a,
               some (pyStrip dsIn)⟩] } := by
  simp only [add_expense] at h
  cases hv : validate_date (pyStrip dIn) with
  | false => rw [hv] at h; simp at h
  | true =>
  rw [hv] at h
  simp only [Bool.not_true, Bool.false_eq_true, if_false] at h
  cases hcat : (!(pyStrip cIn).isEmpty && pyIsalpha (pyStrip cIn).data) with
  | false => rw [hcat] at h; simp at h
  | true =>
  rw [hcat] at h
  simp only [Bool.not_true, Bool.false_eq_true, if_false] at h
  cases hflt : pyFloat (pyStrip aIn) with
  | none => rw [hflt] at h; simp at h
  | some a =>
  rw [hflt] at h
  have h2 : (if a ≤ 0 then (none : Option Tracker)
      else if (pyStrip dsIn).isEmpty = true then none
      else some { t with expenses := t.expenses
        ++ [⟨some (pyStrip dIn), some (pyCapitalize (pyStrip cIn)), a,
             some (pyStrip dsIn)⟩] }) = some t2 := h
  by_cases ha : a ≤ 0
  · rw [if_pos ha] at h2; simp at h2
  · rw [if_neg ha] at h2
    cases hdse : (pyStrip dsIn).isEmpty with
    | true => rw [hdse] at h2; simp at h2
    | false =>
    rw [hdse] at h2
    simp only [Bool.false_eq_true, if_false, Option.some.injEq] at h2
    exact ⟨a, rfl, not_le.mp ha, rfl, rfl, rfl, h2.symm⟩

theorem add_expense_eq (t : Tracker) (dIn cIn aIn dsIn : String) (a : ℚ)
    (hv : validate_date (pyStrip dIn) = true)
    (hcat : (!(pyStrip cIn).isEmpty && pyIsalpha (pyStrip cIn).data) = true)
    (hflt : pyFloat (pyStrip aIn) = some a) (ha : 0 < a)
    (hdse : (pyStrip dsIn).isEmpty = false) :
    add_expense t dIn cIn aIn dsIn
      = some { t with expenses := t.expenses
          ++ [⟨some (pyStrip dIn), some (pyCapitalize (pyStrip cIn)), a,
               some (pyStrip dsIn)⟩] } := by
  simp only [add_expense]
  rw [hv, hcat]
  simp only [Bool.not_true, Bool.false_eq_true, if_false]
  rw [hflt]
  show (if a ≤ 0 then (none : Option Tracker)
      else if (pyStrip dsIn).isEmpty = true then none
      else some { t with expenses := t.expenses
        ++ [⟨some (pyStrip dIn), some (pyCapitalize (pyStrip cIn)), a,
             some (pyStrip dsIn)⟩] }) = _
  rw [if_neg (not_le.mpr ha), hdse]
  simp only [Bool.false_eq_true, if_false]

/-! ## Field value bounds for the date patterns -/

theorem digitsVal_single (c : Char) : digitsVal [c] = digitVal c := by
  rw [digitsVal_cons]
  have h0 : digitsVal ([] : List Char) = 0 := rfl
  rw [h0]
  simp

theorem digitsVal_pair (c d : Char) : digitsVal [c, d] = digitVal c * 10 + digitVal d := by
  rw [digitsVal_cons, digitsVal_single]
  simp

theorem isDigitC_iff (c : Char) : isDigitC c = true ↔ (48 ≤ c.toNat ∧ c.toNat ≤ 57) := by
  simp [isDigitC]

theorem isDayChars_facts (cs : List Char) (h : isDayChars cs = true) :
    1 ≤ cs.length ∧ cs.length ≤ 2 ∧ 1 ≤ fieldVal cs ∧ fieldVal cs ≤ 31 := by
  match cs with
  | [] => exact absurd h (by decide)
  | [c] =>
      simp only [isDayChars, betw, Bool.and_eq_true, decide_eq_true_eq] at h
      have hdig : isDigitC c = true := (isDigitC_iff c).mpr (by omega)
      have hval : fieldVal [c] = c.toNat - 48 := by
        unfold fieldVal
        rw [List.filter_cons, if_pos hdig, List.filter_nil, digitsVal_single]
        rfl
      refine ⟨by simp, by simp, ?_, ?_⟩ <;> rw [hval] <;> omega
  | [c, d] =>
      simp only [isDayChars, betw, Bool.or_eq_true, Bool.and_eq_true, decide_eq_true_eq] at h
      rcases h with ((⟨h1, h2⟩ | ⟨h1, h2⟩) | ⟨h1, h2⟩) | ⟨h1, h2⟩
      · have hc : isDigitC c = true := (isDigitC_iff c).mpr (by omega)
        have hd : isDigitC d = true := (isDigitC_iff d).mpr (by omega)
        have hval : fieldVal [c, d] = (c.toNat - 48) * 10 + (d.toNat - 48) := by
          unfold fieldVal
          rw [List.filter_cons, if_pos hc, List.filter_cons, if_pos hd, List.filter_nil,
            digitsVal_pair]
          rfl
        refine ⟨by simp, by simp, ?_, ?_⟩ <;> rw [hval] <;> rcases h2 with h2 | h2 <;> omega
      · have hc : isDigitC c = true := (isDigitC_iff c).mpr (by rcases h1 with h1 | h1 <;> omega)
        have hd : isDigitC d = true := (isDigitC_iff d).mpr (by omega)
        have hval : fieldVal [c, d] = (c.toNat - 48) * 10 + (d.toNat - 48) := by
          unfold fieldVal
          rw [List.filter_cons, if_pos hc, List.filter_cons, if_pos hd, List.filter_nil,
            digitsVal_pair]
          rfl
        refine ⟨by simp, by simp, ?_, ?_⟩ <;> rw [hval] <;> rcases h1 with h1 | h1 <;> omega
      · have hc : isDigitC c = true := (isDigitC_iff c).mpr (by omega)
        have hd : isDigitC d = true := (isDigitC_iff d).mpr (by omega)
        have hval : fieldVal [c, d] = (c.toNat - 48) * 10 + (d.toNat - 48) := by
          unfold fieldVal
          rw [List.filter_cons, if_pos hc, List.filter_cons, if_pos hd, List.filter_nil,
            digitsVal_pair]
          rfl
        refine ⟨by simp, by simp, ?_, ?_⟩ <;> rw [hval] <;> omega
      · have hc : isDigitC c = false := by
          cases hcc : isDigitC c
          · rfl
          · rw [isDigitC_iff] at hcc
            omega
        have hd : isDigitC d = true := (isDigitC_iff d).mpr (by omega)
        have hval : fieldVal [c, d] = d.toNat - 48 := by
          unfold fieldVal
          rw [List.filter_cons, if_neg (by rw [hc]; exact Bool.false_ne_true),
            List.filter_cons, if_pos hd, List.filter_nil, digitsVal_single]
          rfl
        refine ⟨by simp, by simp, ?_, ?_⟩ <;> rw [hval] <;> omega
  | _ :: _ :: _ :: _ => exact absurd h (by simp [isDayChars])

theorem isMonthChars_facts (cs : List Char) (h : isMonthChars cs = true) :
    1 ≤ cs.length ∧ cs.length ≤ 2 ∧ 1 ≤ fieldVal cs ∧ fieldVal cs ≤ 12 := by
  match cs with
  | [] => exact absurd h (by decide)
  | [c] =>
      simp only [isMonthChars, betw, Bool.and_eq_true, decide_eq_true_eq] at h
      have hdig : isDigitC c = true := (isDigitC_iff c).mpr (by omega)
      have hval : fieldVal [c] = c.toNat - 48 := by
        unfold fieldVal
        rw [List.filter_cons, if_pos hdig, List.filter_nil, digitsVal_single]
        rfl
      refine ⟨by simp, by simp, ?_, ?_⟩ <;> rw [hval] <;> omega
  | [c, d] =>
      simp only [isMonthChars, betw, Bool.or_eq_true, Bool.and_eq_true, decide_eq_true_eq] at h
      have hc : isDigitC c = true := by
        rw [isDigitC_iff]
        rcases h with ⟨h1, -⟩ | ⟨h1, -⟩ <;> omega
      have hd : isDigitC d = true := by
        rw [isDigitC_iff]
        rcases h with ⟨-, h2⟩ | ⟨-, h2⟩ <;> omega
      have hval : fieldVal [c, d] = (c.toNat - 48) * 10 + (d.toNat - 48) := by
        unfold fieldVal
        rw [List.filter_cons, if_pos hc, List.filter_cons, if_pos hd, List.filter_nil,
          digitsVal_pair]
        rfl
      refine ⟨by simp, by simp, ?_, ?_⟩ <;> rw [hval] <;>
        rcases h with ⟨h1, h2⟩ | ⟨h1, h2⟩ <;> omega
  | _ :: _ :: _ :: _ => exact absurd h (by simp [isMonthChars])

/-- Claim C1: for every ledger whose expense records are well-formed, saving
it to the file, loading it back, and saving again preserves the exact
sequence of `Expense` records — same field values and same insertion
order.  (`load ∘ save` is the identity on the sequence, hence the second
save writes the identical file.) -/
theorem C1_save_load_save_roundtrip (es : List Expense)
    (hwf : ∀ e ∈ es, WFExpense e = true) :
    load_expenses (some (save_expenses es)) = es
      ∧ save_expenses (load_expenses (some (save_expenses es))) = save_expenses es := by
  have h := load_save_roundtrip es hwf
  exact ⟨h, by rw [h]⟩

/-- Witness for C1 at the concrete ledger `c1Ledger`. -/
theorem C1_save_load_save_roundtrip_witness :
    (∀ e ∈ c1Ledger, WFExpense e = true)
      ∧ load_expenses (some (save_expenses c1Ledger)) = c1Ledger :=
  ⟨by decide, (C1_save_load_save_roundtrip c1Ledger (by decide)).1⟩

/-- Claim C2, counterexample: a loaded row whose amount parses to the
non-positive number `-5` and whose date `"banana"` is not a valid
`DD-MM-YYYY` date is admitted into the sequence, not dropped. -/
theorem C2_load_admits_invalid_counterexample :
    load_expenses (some "date,category,amount,description\r\nbanana,Food,-5,x\r\n")
        = [⟨some "banana", some "Food", mkRat (-5) 1, some "x"⟩]
      ∧ ¬ (0 < (mkRat (-5) 1 : ℚ))
      ∧ validate_date "banana" = false :=
  ⟨by decide, by decide, by decide⟩

/-- Claim C2 (amended): the add operation maintains the invariant that every
`Expense` in the sequence has amount > 0 and a syntactically valid date;
load does **not** enforce it — it only drops rows whose amount cell fails
to parse as a decimal, admitting non-positive amounts and invalid dates. -/
theorem C2_add_maintains_invariant (t : Tracker) (dIn cIn aIn dsIn : String) (t2 : Tracker)
    (hadd : add_expense t dIn cIn aIn dsIn = some t2)
    (hinv : ∀ e ∈ t.expenses, ExpenseInvariant e) :
    ∀ e ∈ t2.expenses, ExpenseInvariant e := by
  obtain ⟨a, hflt, ha, hv, -, -, ht2⟩ := add_expense_some t dIn cIn aIn dsIn t2 hadd
  subst ht2
  intro e he
  rcases List.mem_append.mp he with he | he
  · exact hinv e he
  · rw [List.mem_singleton] at he
    subst he
    exact ⟨ha, pyStrip dIn, rfl, hv⟩

/-- Witness for C2 at a concrete completed add on the empty tracker. -/
theorem C2_add_maintains_invariant_witness :
    add_expense ⟨[], 0⟩ "01-01-2024" "food" "12" "lunch"
        = some ⟨[⟨some "01-01-2024", some "Food", mkRat 12 1, some "lunch"⟩], 0⟩
      ∧ ∀ e ∈ (Tracker.mk [⟨some "01-01-2024", some "Food", mkRat 12 1, some "lunch"⟩] 0).expenses,
          ExpenseInvariant e :=
  ⟨by decide,
   C2_add_maintains_invariant ⟨[], 0⟩ "01-01-2024" "food" "12" "lunch" _ (by decide)
     (by simp)⟩

/-- `row['amount']` under the standard header is the third cell. -/
theorem dictVal_amount (r : List String) : dictVal stdHeader r "amount" = some (r.get? 2) := by
  unfold dictVal
  rw [show stdHeader.findIdx? (fun h => h = "amount") = some 2 from by decide]

theorem processRows_amount_fail (header r : List String) (rs : List (List String))
    (hne : r.isEmpty = false) (s : String)
    (hd : dictVal header r "amount" = some (some s)) (hflt : pyFloat s = none) :
    processRows header (r :: rs) = processRows header rs := by
  simp only [processRows, hne, Bool.false_eq_true, if_false, hd, hflt]

theorem processRows_amount_none (header r : List String) (rs : List (List String))
    (hne : r.isEmpty = false) (hd : dictVal header r "amount" = some none) :
    processRows header (r :: rs) = [] := by
  simp only [processRows, hne, Bool.false_eq_true, if_false, hd]

/-- Claim C3, counterexample: a data row shorter than the amount column
(`01-01-2024,Food`) makes `float(None)` raise `TypeError`, which the
row-level `except (ValueError, KeyError)` does not catch; the file-level
handler ends the load, so the following well-formed row is lost — loading
does **not** continue with the next row.  The result is `[]`, not the
claimed one-row ledger. -/
theorem C3_short_row_stops_load_counterexample :
    load_expenses
        (some "date,category,amount,description\r\n01-01-2024,Food\r\n02-01-2024,Bus,5,x\r\n")
      = [] := by decide

/-- Claim C3 (amended): for a data row whose amount cell is present but
fails to parse as a decimal, the row is discarded and loading continues
with the next row; but a row with no amount cell (shorter than the amount
column) stops the load, discarding it and every later row.  In both cases
no error surfaces to the caller. -/
theorem C3_row_error_handling :
    (∀ (r : List String) (rs : List (List String)) (s : String),
        r.get? 2 = some s → pyFloat s = none →
        processRows stdHeader (r :: rs) = processRows stdHeader rs)
      ∧ (∀ (r : List String) (rs : List (List String)),
          r ≠ [] → r.get? 2 = none → processRows stdHeader (r :: rs) = []) := by
  constructor
  · intro r rs s hget hflt
    have hne : r.isEmpty = false := by
      cases r
      · simp at hget
      · rfl
    exact processRows_amount_fail stdHeader r rs hne s (by rw [dictVal_amount, hget]) hflt
  · intro r rs hr hget
    have hne : r.isEmpty = false := by
      cases r
      · exact absurd rfl hr
      · rfl
    exact processRows_amount_none stdHeader r rs hne (by rw [dictVal_amount, hget])

/-- Witness for C3 at concrete rows: a non-numeric amount is skipped and
processing continues; a two-cell row stops the load. -/
theorem C3_row_error_handling_witness :
    (["01-01-2024", "Food", "abc", "x"].get? 2 = some "abc" ∧ pyFloat "abc" = none
      ∧ processRows stdHeader [["01-01-2024", "Food", "abc", "x"], ["02-01-2024", "Bus", "5", "y"]]
          = processRows stdHeader [["02-01-2024", "Bus", "5", "y"]])
      ∧ ((["01-01-2024", "Food"] : List String) ≠ [] ∧ (["01-01-2024", "Food"].get? 2 = none)
        ∧ processRows stdHeader [["01-01-2024", "Food"], ["02-01-2024", "Bus", "5", "y"]] = []) :=
  ⟨⟨by decide, by decide,
    C3_row_error_handling.1 ["01-01-2024", "Food", "abc", "x"] [["02-01-2024", "Bus", "5", "y"]]
      "abc" (by decide) (by decide)⟩,
   ⟨by decide, by decide,
    C3_row_error_handling.2 ["01-01-2024", "Food"] [["02-01-2024", "Bus", "5", "y"]]
      (by decide) (by decide)⟩⟩

/-- Claim C4 (code bug): `set_budget` checks `budget < 0` — against its own
"Budget must be positive." message — so it accepts `0` and configures the
budget to `0`; `track_budget` then takes its `monthly_budget <= 0` early
return ("Please set your monthly budget first."), i.e. the configured
budget of zero is reported as the not-configured condition.  The code
conflates "no budget set" with "budget of zero"; a negative input is
rejected as the message intends. -/
theorem C4_zero_budget_conflated :
    set_budget ⟨[], mkRat 50 1⟩ "0" = some ⟨[], mkRat 0 1⟩
      ∧ set_budget ⟨[], mkRat 50 1⟩ "-1" = none
      ∧ track_budget ⟨[], mkRat 0 1⟩ = none :=
  ⟨by decide, by decide, by decide⟩

/-- Claim C5, counterexample: `datetime.strptime` with `%d-%m-%Y` accepts
one-digit days and months, so strings not of the two-digit-day /
two-digit-month shape are **not** all rejected. -/
theorem C5_one_digit_accepted_counterexample :
    validate_date "1-1-2024" = true ∧ validate_date "7-12-2024" = true :=
  ⟨by decide, by decide⟩

/-- Claim C5 (amended): every date string accepted by the add operation's
validation has day-month-year form with a one- or two-digit day, a one- or
two-digit month and an exactly four-digit year, the fields denote a real
calendar date (month 1–12, day within the month's length, year ≥ 1);
one-digit days and months are accepted (see the counterexample theorem). -/
theorem C5_accepted_date_shape (s : String) (h : validate_date s = true) :
    ∃ d m y, splitDash s.data = [d, m, y]
      ∧ 1 ≤ d.length ∧ d.length ≤ 2
      ∧ 1 ≤ m.length ∧ m.length ≤ 2
      ∧ y.length = 4 ∧ (∀ c ∈ y, isDigitC c = true)
      ∧ 1 ≤ fieldVal y
      ∧ 1 ≤ fieldVal m ∧ fieldVal m ≤ 12
      ∧ 1 ≤ fieldVal d ∧ fieldVal d ≤ daysInMonth (fieldVal y) (fieldVal m) := by
  unfold validate_date at h
  cases hsp : splitDash s.data with
  | nil => exact absurd hsp (splitDash_ne_nil s.data)
  | cons d t =>
    rw [hsp] at h
    cases t with
    | nil => exact absurd h (by simp)
    | cons m t2 =>
      cases t2 with
      | nil => exact absurd h (by simp)
      | cons y t3 =>
        cases t3 with
        | cons z t4 => exact absurd h (by simp)
        | nil =>
          simp only [Bool.and_eq_true] at h
          obtain ⟨⟨⟨⟨hd, hm⟩, hy⟩, hy1⟩, hdm⟩ := h
          obtain ⟨hd1, hd2, hd3, -⟩ := isDayChars_facts d hd
          obtain ⟨hm1, hm2, hm3, hm4⟩ := isMonthChars_facts m hm
          unfold isYearChars at hy
          rw [Bool.and_eq_true, List.all_eq_true] at hy
          refine ⟨d, m, y, rfl, hd1, hd2, hm1, hm2, of_decide_eq_true hy.1,
            fun c hc => hy.2 c hc, of_decide_eq_true hy1, hm3, hm4, hd3,
            of_decide_eq_true hdm⟩

/-- Witness for C5 at the concrete accepted date `01-02-2024`. -/
theorem C5_accepted_date_shape_witness :
    validate_date "01-02-2024" = true
      ∧ ∃ d m y, splitDash "01-02-2024".data = [d, m, y]
          ∧ 1 ≤ d.length ∧ d.length ≤ 2
          ∧ 1 ≤ m.length ∧ m.length ≤ 2
          ∧ y.length = 4 ∧ (∀ c ∈ y, isDigitC c = true)
          ∧ 1 ≤ fieldVal y
          ∧ 1 ≤ fieldVal m ∧ fieldVal m ≤ 12
          ∧ 1 ≤ fieldVal d ∧ fieldVal d ≤ daysInMonth (fieldVal y) (fieldVal m) :=
  ⟨by decide, C5_accepted_date_shape "01-02-2024" (by decide)⟩

/-- Claim C6, counterexample: `_save_expenses` writes the amount through
`str(float)` (via `csv.DictWriter`), not with two decimal places: the
amount `12.5` is written as `"12.5"`, not `"12.50"`.  (The two-decimal
formatting exists only in `view_expenses`/`track_budget` display code.) -/
theorem C6_two_decimal_counterexample :
    save_expenses [⟨some "01-01-2024", some "Food", mkRat 25 2, some "x"⟩]
        = "date,category,amount,description\r\n01-01-2024,Food,12.5,x\r\n"
      ∧ floatStr (mkRat 25 2) = "12.5" :=
  ⟨by decide, by decide⟩

/-- Claim C6 (amended): save writes each expense's amount in the float's
default (`str`) form — the shortest decimal, with at least one fractional
digit, e.g. `12.5` and `7.0`, not padded to two decimals — while load
parses the amount column as a generic decimal, accepting more precision
than save writes (e.g. `12.345`), and accepts back everything save
writes. -/
theorem C6_amount_codec :
    (∀ e : Expense, (expenseRow e).get? 2 = some (floatStr e.amount))
      ∧ (∀ q : ℚ, 0 < q → q.den ∣ 10 ^ 40 → pyFloat (floatStr q) = some q)
      ∧ pyFloat "12.345" = some (mkRat 12345 1000)
      ∧ floatStr (mkRat 7 1) = "7.0" ∧ floatStr (mkRat 25 2) = "12.5" := by
  refine ⟨fun e => rfl, fun q h1 h2 => pyFloat_floatStr q h2, by decide, by decide, by decide⟩

/-- Witness for C6: the written form of `12.5` parses back to `12.5`. -/
theorem C6_amount_codec_witness :
    (0 : ℚ) < mkRat 25 2 ∧ (mkRat 25 2).den ∣ 10 ^ 40
      ∧ pyFloat (floatStr (mkRat 25 2)) = some (mkRat 25 2) :=
  ⟨by decide, ⟨5 * 10 ^ 39, by norm_num⟩,
   C6_amount_codec.2.1 (mkRat 25 2) (by decide) ⟨5 * 10 ^ 39, by norm_num⟩⟩

theorem add_expense_cat_fail (t : Tracker) (dIn cIn aIn dsIn : String)
    (hcat : (!(pyStrip cIn).isEmpty && pyIsalpha (pyStrip cIn).data) = false) :
    add_expense t dIn cIn aIn dsIn = none := by
  simp only [add_expense]
  cases hv : validate_date (pyStrip dIn) with
  | false => simp
  | true =>
      simp only [Bool.not_true, Bool.false_eq_true, if_false]
      rw [hcat]
      simp

/-- Claim C7: with the other three inputs valid, the add operation accepts a
category string (already whitespace-trimmed, as the prompt's `.strip()`
leaves it) iff it is non-empty and alphabetic-only, and the stored record
carries it normalized to capitalized form; `"food"` capitalizes to
`"Food"`, while `"123"` and `""` are rejected. -/
theorem C7_category_validation (t : Tracker) (dIn cIn aIn dsIn : String) (a : ℚ)
    (hstrip : pyStrip cIn = cIn)
    (hv : validate_date (pyStrip dIn) = true)
    (hflt : pyFloat (pyStrip aIn) = some a) (ha : 0 < a)
    (hdse : (pyStrip dsIn).isEmpty = false) :
    ((add_expense t dIn cIn aIn dsIn).isSome ↔ (cIn ≠ "" ∧ pyIsalpha cIn.data = true))
      ∧ (∀ t2, add_expense t dIn cIn aIn dsIn = some t2 →
          ∃ e, t2.expenses = t.expenses ++ [e] ∧ e.category = some (pyCapitalize cIn))
      ∧ pyCapitalize "food" = "Food"
      ∧ add_expense t dIn "123" aIn dsIn = none
      ∧ add_expense t dIn "" aIn dsIn = none := by
  refine ⟨?_, ?_, by decide, ?_, ?_⟩
  · constructor
    · intro hs
      obtain ⟨t2, ht2⟩ := Option.isSome_iff_exists.mp hs
      obtain ⟨a2, -, -, -, hcat, -, -⟩ := add_expense_some t dIn cIn aIn dsIn t2 ht2
      rw [hstrip, Bool.and_eq_true] at hcat
      obtain ⟨h1, h2⟩ := hcat
      refine ⟨?_, h2⟩
      intro hemp
      rw [hemp] at h1
      exact absurd h1 (by decide)
    · rintro ⟨h1, h2⟩
      have hcat : (!(pyStrip cIn).isEmpty && pyIsalpha (pyStrip cIn).data) = true := by
        rw [hstrip, Bool.and_eq_true]
        refine ⟨?_, h2⟩
        cases hemp : cIn.isEmpty
        · rfl
        · exact absurd ((String.isEmpty_iff cIn).mp hemp) h1
      rw [add_expense_eq t dIn cIn aIn dsIn a hv hcat hflt ha hdse]
      rfl
  · intro t2 ht2
    obtain ⟨a2, -, -, -, -, -, heq⟩ := add_expense_some t dIn cIn aIn dsIn t2 ht2
    subst heq
    exact ⟨_, rfl, by rw [hstrip]⟩
  · exact add_expense_cat_fail t dIn "123" aIn dsIn (by decide)
  · exact add_expense_cat_fail t dIn "" aIn dsIn (by decide)

/-- Witness for C7 on the empty tracker with category `"food"`. -/
theorem C7_category_validation_witness :
    (pyStrip "food" = "food" ∧ validate_date (pyStrip "01-01-2024") = true
      ∧ pyFloat (pyStrip "12") = some (mkRat 12 1) ∧ (0 : ℚ) < mkRat 12 1
      ∧ (pyStrip "x").isEmpty = false)
      ∧ ((add_expense ⟨[], 0⟩ "01-01-2024" "food" "12" "x").isSome
          ↔ (("food" : String) ≠ "" ∧ pyIsalpha "food".data = true)) :=
  ⟨⟨by decide, by decide, by decide, by decide, by decide⟩,
   (C7_category_validation ⟨[], 0⟩ "01-01-2024" "food" "12" "x" (mkRat 12 1)
     (by decide) (by decide) (by decide) (by decide) (by decide)).1⟩

/-- Claim C8: with a configured budget `b > 0`, the budget-status operation
reports spent = the sum of all amount fields and remaining = b − spent,
which may be negative: with budget 100 and expenses summing to 120 it
reports spent 120 and remaining −20. -/
theorem C8_budget_math :
    (∀ t : Tracker, 0 < t.monthly_budget →
        track_budget t = some (totalSpent t, t.monthly_budget - totalSpent t))
      ∧ track_budget ⟨[⟨some "01-01-2024", some "Food", 120, some "x"⟩], 100⟩
          = some (120, -20) := by
  constructor
  · intro t ht
    unfold track_budget
    rw [if_neg (not_le.mpr ht)]
  · unfold track_budget totalSpent
    norm_num

/-- Witness for C8 at the concrete overspent tracker. -/
theorem C8_budget_math_witness :
    (0 : ℚ) < (Tracker.mk [⟨some "01-01-2024", some "Food", 120, some "x"⟩] 100).monthly_budget
      ∧ track_budget ⟨[⟨some "01-01-2024", some "Food", 120, some "x"⟩], 100⟩
          = some (totalSpent ⟨[⟨some "01-01-2024", some "Food", 120, some "x"⟩], 100⟩,
              (Tracker.mk [⟨some "01-01-2024", some "Food", 120, some "x"⟩] 100).monthly_budget
                - totalSpent ⟨[⟨some "01-01-2024", some "Food", 120, some "x"⟩], 100⟩) :=
  ⟨by norm_num,
   C8_budget_math.1 ⟨[⟨some "01-01-2024", some "Food", 120, some "x"⟩], 100⟩ (by norm_num)⟩

/-- Claim C9: constructing the tracker when the persisted file does not
exist succeeds and yields an empty ledger: the expense sequence is empty
and the total spent is 0 (and the default budget is the unset 0). -/
theorem C9_missing_file_empty_ledger :
    initTracker none = ⟨[], 0⟩ ∧ totalSpent (initTracker none) = 0
      ∧ listExpenses (initTracker none) = [] :=
  ⟨rfl, rfl, rfl⟩

/-- Claim C10: a completed add appends exactly one record at the tail of the
expense sequence — carrying the validated (stripped) date, the normalized
category, the parsed positive amount and the stripped description — while
all previously stored records (values and order) and the configured
monthly budget are unchanged. -/
theorem C10_add_appends_one (t : Tracker) (dIn cIn aIn dsIn : String) (t2 : Tracker)
    (hadd : add_expense t dIn cIn aIn dsIn = some t2) :
    ∃ a : ℚ, pyFloat (pyStrip aIn) = some a ∧ 0 < a
      ∧ validate_date (pyStrip dIn) = true
      ∧ t2.expenses = t.expenses
          ++ [⟨some (pyStrip dIn), some (pyCapitalize (pyStrip cIn)), a, some (pyStrip dsIn)⟩]
      ∧ t2.monthly_budget = t.monthly_budget := by
  obtain ⟨a, h1, h2, h3, -, -, ht⟩ := add_expense_some t dIn cIn aIn dsIn t2 hadd
  subst ht
  exact ⟨a, h1, h2, h3, rfl, rfl⟩

/-- Witness for C10 at a concrete completed add. -/
theorem C10_add_appends_one_witness :
    add_expense ⟨[⟨some "05-05-2024", some "Bus", mkRat 3 1, some "t"⟩], mkRat 99 1⟩
        " 02-02-2024 " "fOOd" "7.25" " coffee "
      = some ⟨[⟨some "05-05-2024", some "Bus", mkRat 3 1, some "t"⟩,
               ⟨some "02-02-2024", some "Food", mkRat 725 100, some "coffee"⟩], mkRat 99 1⟩
      ∧ ∃ a : ℚ, pyFloat (pyStrip "7.25") = some a ∧ 0 < a
          ∧ validate_date (pyStrip " 02-02-2024 ") = true
          ∧ (Tracker.mk [⟨some "05-05-2024", some "Bus", mkRat 3 1, some "t"⟩,
               ⟨some "02-02-2024", some "Food", mkRat 725 100, some "coffee"⟩]
               (mkRat 99 1)).expenses
            = (Tracker.mk [⟨some "05-05-2024", some "Bus", mkRat 3 1, some "t"⟩]
                (mkRat 99 1)).expenses
              ++ [⟨some (pyStrip " 02-02-2024 "), some (pyCapitalize (pyStrip "fOOd")),
                   a, some (pyStrip " coffee ")⟩]
          ∧ (Tracker.mk [⟨some "05-05-2024", some "Bus", mkRat 3 1, some "t"⟩,
               ⟨some "02-02-2024", some "Food", mkRat 725 100, some "coffee"⟩]
               (mkRat 99 1)).monthly_budget
            = (Tracker.mk [⟨some "05-05-2024", some "Bus", mkRat 3 1, some "t"⟩]
                (mkRat 99 1)).monthly_budget :=
  ⟨by decide,
   C10_add_appends_one ⟨[⟨some "05-05-2024", some "Bus", mkRat 3 1, some "t"⟩], mkRat 99 1⟩
     " 02-02-2024 " "fOOd" "7.25" " coffee " _ (by decide)⟩
